import Mathlib

/-!
# vsofont: the `Parse` function of `font.go`

A shallow embedding of package `vsofont` (file `font.go`) and theorems about it.

Modelling conventions.

* A Go `string` holding valid UTF-8 is the list of its code points (`Str`).
  `strings.Split` with a one-character separator, `strings.TrimSpace`,
  `unicode.IsSpace` and `strconv.Atoi` are standard-library functions; they are
  written out below after their Go definitions.
* `int` is the 64-bit two's-complement integer; values are `Int` and the one
  operation of `Parse` that can overflow (`/`) wraps explicitly.
* `float32` is kept abstract: the record `Float32Ops F` supplies the zero value,
  the conversion `float32(n)`, the product and `float32(strconv.ParseFloat(s, 32))`.
  Every theorem holds for every such record.
* `map[string]Glyph` is a key-unique association list with overwrite-on-insert.
* A call of `Parse` ends in one of three ways: it returns a font, it returns an
  error, or it panics at run time (`Outcome`).
-/

namespace Vsofont

/-! ## Strings and the standard-library functions used by `Parse` -/

/-- A Go string, as the sequence of its code points. -/
abbrev Str := List Char

/-- The function `unicode.IsSpace`: the Latin-1 spaces and the code points with the
Unicode White_Space property. -/
def IsSpace (r : Char) : Bool :=
  let n := r.toNat
  (9 ≤ n && n ≤ 13) || n == 0x20 || n == 0x85 || n == 0xA0 || n == 0x1680 ||
  (0x2000 ≤ n && n ≤ 0x200A) || n == 0x2028 || n == 0x2029 || n == 0x202F ||
  n == 0x205F || n == 0x3000

/-- The function `strings.TrimSpace`: all leading and trailing white space removed. -/
def TrimSpace (s : Str) : Str :=
  ((s.dropWhile IsSpace).reverse.dropWhile IsSpace).reverse

/-- The function `strings.Split(s, sep)` for a separator of one character: the
pieces of `s` between consecutive separators; there is always at least one. -/
def Split (sep : Char) : Str → List Str
  | [] => [[]]
  | c :: cs =>
    if c = sep then [] :: Split sep cs
    else
      match Split sep cs with
      | [] => [[c]]
      | w :: ws => (c :: w) :: ws

/-- The two causes carried by a `*strconv.NumError`: `ErrSyntax` and `ErrRange`. -/
inductive NumErrKind where
  | ErrSyntax
  | ErrRange
  deriving DecidableEq, Repr

/-- A `*strconv.NumError`: the offending text and the cause. -/
structure NumError where
  Num : Str
  Err : NumErrKind
  deriving DecidableEq, Repr

/-- The largest `uint64`. -/
def maxUint64 : Nat := 2 ^ 64 - 1

/-- The digit loop of `strconv.ParseUint(s, 10, 64)`: a byte that is not a decimal
digit is a syntax error, an accumulator leaving `uint64` is a range error,
whichever comes first. -/
def parseUintLoop : Str → Nat → Except NumErrKind Nat
  | [], n => .ok n
  | c :: cs, n =>
    if '0' ≤ c ∧ c ≤ '9' then
      let d := c.toNat - '0'.toNat
      if n ≥ maxUint64 / 10 + 1 then .error .ErrRange
      else
        let n1 := n * 10 + d
        if n1 > maxUint64 then .error .ErrRange
        else parseUintLoop cs n1
    else .error .ErrSyntax

/-- The function `strconv.ParseUint(s, 10, 64)`. -/
def ParseUint (s : Str) : Except NumErrKind Nat :=
  if s = [] then .error .ErrSyntax else parseUintLoop s 0

/-- The function `strconv.ParseInt(s, 10, 0)` with a 64-bit `int`. -/
def ParseInt (s : Str) : Except NumErrKind Int :=
  match s with
  | [] => .error .ErrSyntax
  | c :: cs =>
    let neg := decide (c = '-')
    let body := if c = '+' ∨ c = '-' then cs else c :: cs
    match ParseUint body with
    | .error k => .error k
    | .ok un =>
      if neg = false ∧ un ≥ 2 ^ 63 then .error .ErrRange
      else if neg = true ∧ un > 2 ^ 63 then .error .ErrRange
      else .ok (if neg then - (un : Int) else (un : Int))

/-- The function `strconv.Atoi`: its fast path for short inputs computes the same
result as `ParseInt(s, 10, 0)`, to which it otherwise falls back. -/
def Atoi (s : Str) : Except NumErrKind Int := ParseInt s

/-! ## Machine arithmetic -/

/-- Reduction of an integer to the 64-bit two's-complement range. -/
def wrapInt (n : Int) : Int := (n + 2 ^ 63) % 2 ^ 64 - 2 ^ 63

/-- The operations on `float32` that `Parse` uses. -/
structure Float32Ops (F : Type) where
  /-- the zero value of `float32` -/
  zero : F
  /-- the conversion `float32(n)` of an `int` -/
  ofInt : Int → F
  /-- the product of two `float32` values -/
  mul : F → F → F
  /-- the value `float32(v)` of `v, err := strconv.ParseFloat(s, 32)`, or the cause of `err` -/
  parseFloat : Str → Except NumErrKind F

/-! ## The data model of `font.go` -/

/-- The type `Vector`. -/
structure Vector (F : Type) where
  X : F
  Y : F
  deriving DecidableEq, Repr

/-- The type `Glyph`; an element of `Lines` is a `[2]Vector`. -/
structure Glyph (F : Type) where
  Rune : Str
  Lines : List (Vector F × Vector F)
  deriving DecidableEq, Repr

/-- Assignment `m[k] = g` on a map kept as a key-unique association list. -/
def mapSet {F : Type} (m : List (Str × Glyph F)) (k : Str) (g : Glyph F) :
    List (Str × Glyph F) :=
  match m with
  | [] => [(k, g)]
  | (k', g') :: rest => if k' = k then (k, g) :: rest else (k', g') :: mapSet rest k g

/-- Lookup `m[k]` on a map kept as an association list. -/
def mapGet {F : Type} (m : List (Str × Glyph F)) (k : Str) : Option (Glyph F) :=
  match m with
  | [] => none
  | (k', g') :: rest => if k' = k then some g' else mapGet rest k

/-- The type `Font`. -/
structure Font (F : Type) where
  Spacing : F
  Glyphs : List (Str × Glyph F)
  deriving DecidableEq, Repr

/-- The run-time panics that the statements of `Parse` can raise. -/
inductive Panic where
  | divideByZero
  | indexOutOfRange
  deriving DecidableEq, Repr

/-- The messages of the errors built by `fmt.Errorf` in `Parse`, with the values
formatted into them. -/
inductive ParseError where
  /-- `invalid number of tokens` -/
  | invalidNumberOfTokens
  /-- `failed to grid width: %v` -/
  | gridWidth (err : NumError)
  /-- `failed to grid height: %v` -/
  | gridHeight (err : NumError)
  /-- `failed to parse spacing: %v` -/
  | parseSpacing (err : NumError)
  /-- `failed to scaling width: %v` -/
  | scalingWidth (err : NumError)
  /-- `failed to scaling height: %v` -/
  | scalingHeight (err : NumError)
  /-- `%d: failed to read %q: %v` -/
  | readIndex (lineno : Nat) (token : Str) (err : NumError)
  deriving DecidableEq, Repr

/-- How a computation inside `Parse` ends. -/
inductive Outcome (α : Type) where
  | ok (v : α)
  | error (e : ParseError)
  | panic (p : Panic)
  deriving DecidableEq, Repr

/-- Sequencing: an error or a panic ends the computation. -/
def Outcome.bind {α β : Type} (x : Outcome α) (f : α → Outcome β) : Outcome β :=
  match x with
  | .ok v => f v
  | .error e => .error e
  | .panic p => .panic p

instance : Monad Outcome where
  pure := Outcome.ok
  bind := Outcome.bind

/-- Indexing `xs[i]` of a slice, which panics out of range. -/
def index {α : Type} (xs : List α) (i : Nat) : Outcome α :=
  match xs[i]? with
  | some x => .ok x
  | none => .panic .indexOutOfRange

/-- The result of a `strconv` call, its error wrapped by `mk`. -/
def orFail {α : Type} (r : Except NumErrKind α) (num : Str) (mk : NumError → ParseError) :
    Outcome α :=
  match r with
  | .ok v => .ok v
  | .error k => .error (mk ⟨num, k⟩)

/-! ## `Parse` -/

/-- The local variables of `Parse` that live across iterations of its loop. -/
structure State (F : Type) where
  font : Font F
  gridWidth : Int
  gridHeight : Int
  scaleWidth : F
  scaleHeight : F
  jumpFound : Bool
  deriving DecidableEq, Repr

/-- The closure `convert` of `Parse`, reading the captured variables from `st`.
Go's `%` and `/` truncate toward zero and panic on a zero divisor. -/
def convert {F : Type} (ops : Float32Ops F) (st : State F) (coord : Int) : Outcome (Vector F) :=
  if st.gridWidth = 0 then .panic .divideByZero
  else .ok
    { X := ops.mul (ops.ofInt (Int.tmod coord st.gridWidth)) st.scaleWidth
      Y := ops.mul (ops.ofInt (wrapInt (Int.tdiv coord st.gridWidth))) st.scaleHeight }

/-- The loop `for i := 1; i < len(tokens); i += 2` of the glyph case, run on the
tokens from index `i` on: it stops when fewer than two tokens are left. -/
def glyphLoop {F : Type} (ops : Float32Ops F) (st : State F) (lineno : Nat) :
    List Str → List (Vector F × Vector F) → Outcome (List (Vector F × Vector F))
  | ta :: tb :: rest, lines => do
    let a ← orFail (Atoi ta) ta (ParseError.readIndex lineno ta)
    let b ← orFail (Atoi tb) tb (ParseError.readIndex lineno tb)
    let pa ← convert ops st a
    let pb ← convert ops st b
    glyphLoop ops st lineno rest (lines ++ [(pa, pb)])
  | _, lines => .ok lines

/-- The body of the `switch tokens[0]` statement. -/
def dispatch {F : Type} (ops : Float32Ops F) (lineno : Nat) (tokens : List Str)
    (st : State F) : Outcome (State F) := do
  let t0 ← index tokens 0
  if t0 = "GRID:".toList then
    if tokens.length ≠ 4 then Outcome.error .invalidNumberOfTokens
    else
      let t1 ← index tokens 1
      let width ← orFail (Atoi t1) t1 ParseError.gridWidth
      let t3 ← index tokens 3
      let height ← orFail (Atoi t3) t3 ParseError.gridHeight
      pure { st with gridWidth := width, gridHeight := height }
  else if t0 = "SPACING:".toList then
    if tokens.length ≠ 2 then Outcome.error .invalidNumberOfTokens
    else
      let t1 ← index tokens 1
      let spacing ← orFail (ops.parseFloat t1) t1 ParseError.parseSpacing
      pure { st with font := { st.font with Spacing := spacing } }
  else if t0 = "SCALING:".toList then
    if tokens.length ≠ 4 then Outcome.error .invalidNumberOfTokens
    else
      let t1 ← index tokens 1
      let width ← orFail (ops.parseFloat t1) t1 ParseError.scalingWidth
      let t3 ← index tokens 3
      let height ← orFail (ops.parseFloat t3) t3 ParseError.scalingHeight
      pure { st with scaleWidth := width, scaleHeight := height }
  else if t0 = "COLOR:".toList then
    pure st
  else
    let lines ← glyphLoop ops st lineno (tokens.drop 1) []
    pure { st with font :=
      { st.font with Glyphs := mapSet st.font.Glyphs t0 { Rune := t0, Lines := lines } } }

/-- One iteration of the loop over the lines of the text. -/
def processLine {F : Type} (ops : Float32Ops F) (lineno : Nat) (rawLine : Str)
    (st : State F) : Outcome (State F) :=
  let line := TrimSpace rawLine
  if line = [] then .ok st
  else
    match index line 0 with
    | .panic p => .panic p
    | .error e => .error e
    | .ok c =>
      if c = '#' then .ok st
      else if line = "JUMP!".toList then .ok { st with jumpFound := true }
      else if st.jumpFound = false then .ok st
      else dispatch ops lineno (Split ' ' line) st

/-- The loop `for lineno, line := range strings.Split(text, "\n")`, from index
`lineno` on; a `return` inside the body ends it. -/
def parseLines {F : Type} (ops : Float32Ops F) :
    Nat → List Str → State F → Outcome (State F)
  | _, [], st => .ok st
  | lineno, line :: rest, st =>
    match processLine ops lineno line st with
    | .ok st' => parseLines ops (lineno + 1) rest st'
    | .error e => .error e
    | .panic p => .panic p

/-- The variables of `Parse` before its loop. -/
def initState {F : Type} (ops : Float32Ops F) : State F :=
  { font := { Spacing := ops.zero, Glyphs := [] }
    gridWidth := 0
    gridHeight := 0
    scaleWidth := ops.zero
    scaleHeight := ops.zero
    jumpFound := false }

/-- The function `Parse`. -/
def Parse {F : Type} (ops : Float32Ops F) (text : Str) : Outcome (Font F) :=
  match parseLines ops 0 (Split '\n' text) (initState ops) with
  | .ok st => .ok st.font
  | .error e => .error e
  | .panic p => .panic p

/-! ## An exact decimal instance of the float operations

Arithmetic without rounding on terminating decimals. It instantiates the
parametric results at concrete inputs. -/

/-- The decimal `mant / 10 ^ exp`. -/
structure Dec where
  mant : Int
  exp : Nat
  deriving DecidableEq, Repr

/-- The representation of `m / 10 ^ e` with the least exponent. -/
def Dec.norm : Int → Nat → Dec
  | m, 0 => ⟨m, 0⟩
  | m, e + 1 => if m % 10 = 0 then Dec.norm (m / 10) e else ⟨m, e + 1⟩

/-- The value of a string of decimal digits, continuing from `n`. -/
def digitsValue : Str → Nat → Option Nat
  | [], n => some n
  | c :: cs, n =>
    if '0' ≤ c ∧ c ≤ '9' then digitsValue cs (n * 10 + (c.toNat - '0'.toNat)) else none

/-- Reading of `[+-]digits[.digits]` as an exact decimal. -/
def parseDecimal (s : Str) : Except NumErrKind Dec :=
  let neg := decide (s.head? = some '-')
  let body := if s.head? = some '+' ∨ s.head? = some '-' then s.drop 1 else s
  let ip := body.takeWhile (fun c => c ≠ '.')
  let fp := (body.dropWhile (fun c => c ≠ '.')).drop 1
  if ip = [] ∧ fp = [] then .error .ErrSyntax
  else
    match digitsValue (ip ++ fp) 0 with
    | some m => .ok (Dec.norm (if neg then - (m : Int) else (m : Int)) fp.length)
    | none => .error .ErrSyntax

/-- Exact decimal arithmetic as an instance of the float operations. -/
def decimalOps : Float32Ops Dec where
  zero := ⟨0, 0⟩
  ofInt := fun n => ⟨n, 0⟩
  mul := fun a b => Dec.norm (a.mant * b.mant) (a.exp + b.exp)
  parseFloat := parseDecimal

/-! ## Vocabulary of the statements -/

/-- The first tokens that `switch tokens[0]` treats as directives. -/
def isDirective (t : Str) : Prop :=
  t = "GRID:".toList ∨ t = "SPACING:".toList ∨ t = "SCALING:".toList ∨ t = "COLOR:".toList

instance (t : Str) : Decidable (isDirective t) := by
  unfold isDirective; infer_instance

/-- The conditions under which the loop body reaches the glyph case of the `switch`
with label `L` and index tokens `toks`, once `JUMP!` has been seen. -/
def isGlyphLine (raw : Str) (L : Str) (toks : List Str) : Prop :=
  TrimSpace raw ≠ [] ∧ (TrimSpace raw).head? ≠ some '#' ∧
    TrimSpace raw ≠ "JUMP!".toList ∧ Split ' ' (TrimSpace raw) = L :: toks ∧
    ¬ isDirective L

/-- A line of white space only, or whose first character after white space is `#`. -/
def isBlankOrComment (l : Str) : Prop :=
  (∀ c ∈ l, IsSpace c = true) ∨
    ∃ ws rest, l = ws ++ '#' :: rest ∧ ∀ c ∈ ws, IsSpace c = true

/-- The token `tokens[0]` of a line: the trimmed line up to its first space. -/
def firstToken (raw : Str) : Option Str := (Split ' ' (TrimSpace raw)).head?

/-- The properties of a key of the map of glyphs: not empty, without a space, not
starting with `#`, and not a directive. -/
def isLabel (k : Str) : Prop :=
  k ≠ [] ∧ ' ' ∉ k ∧ k.head? ≠ some '#' ∧ ¬ isDirective k

/-- An error without the line number formatted into it. -/
def ParseError.forgetLine : ParseError → ParseError
  | .readIndex _ t e => .readIndex 0 t e
  | e => e

/-- An outcome without the line number of its error. -/
def Outcome.forgetLine {α : Type} : Outcome α → Outcome α
  | .error e => .error e.forgetLine
  | x => x

/-! ## Basic facts about the standard-library functions -/

theorem Atoi_range {s : Str} {a : Int} (h : Atoi s = .ok a) :
    -(2 : Int) ^ 63 ≤ a ∧ a < (2 : Int) ^ 63 := by
  unfold Atoi ParseInt at h
  split at h
  · simp at h
  · simp only at h
    split at h
    · simp at h
    · rename_i un _
      split at h
      · simp at h
      · split at h
        · simp at h
        · simp only [Except.ok.injEq] at h
          subst h
          split <;> simp_all <;> omega

theorem wrapInt_of_range {n : Int} (h1 : -(2 : Int) ^ 63 ≤ n) (h2 : n < (2 : Int) ^ 63) :
    wrapInt n = n := by
  unfold wrapInt
  norm_num at h1 h2 ⊢
  omega

theorem tdiv_range {a w : Int} (hw : 0 < w) (h1 : -(2 : Int) ^ 63 ≤ a)
    (h2 : a < (2 : Int) ^ 63) :
    -(2 : Int) ^ 63 ≤ Int.tdiv a w ∧ Int.tdiv a w < (2 : Int) ^ 63 := by
  rcases le_or_lt 0 a with ha | ha
  · rw [Int.tdiv_eq_ediv ha hw.le]
    have h3 : a / w ≤ a := Int.ediv_le_self w ha
    have h4 : 0 ≤ a / w := Int.ediv_nonneg ha hw.le
    constructor <;> norm_num at * <;> omega
  · have hna : 0 ≤ -a := by omega
    have h5 : Int.tdiv a w = -((-a) / w) := by
      rw [← Int.tdiv_eq_ediv hna hw.le, Int.neg_tdiv, neg_neg]
    rw [h5]
    have h3 : (-a) / w ≤ -a := Int.ediv_le_self w hna
    have h4 : 0 ≤ (-a) / w := Int.ediv_nonneg hna hw.le
    constructor <;> norm_num at * <;> omega

/-! ## One iteration of the loop, case by case -/

theorem processLine_blank {F : Type} (ops : Float32Ops F) (n : Nat) (raw : Str) (st : State F)
    (h : TrimSpace raw = []) : processLine ops n raw st = .ok st := by
  simp [processLine, h]

theorem processLine_comment {F : Type} (ops : Float32Ops F) (n : Nat) (raw : Str) (st : State F)
    (cs : Str) (h : TrimSpace raw = '#' :: cs) : processLine ops n raw st = .ok st := by
  simp [processLine, h, index]

theorem processLine_jump {F : Type} (ops : Float32Ops F) (n : Nat) (raw : Str) (st : State F)
    (h : TrimSpace raw = "JUMP!".toList) :
    processLine ops n raw st = .ok { st with jumpFound := true } := by
  simp [processLine, h, index]

theorem processLine_scanning {F : Type} (ops : Float32Ops F) (n : Nat) (raw : Str)
    (st : State F) (hj : st.jumpFound = false) (h : TrimSpace raw ≠ "JUMP!".toList) :
    processLine ops n raw st = .ok st := by
  unfold processLine
  cases hl : TrimSpace raw with
  | nil => simp
  | cons c cs =>
    rw [hl] at h
    by_cases hc : c = '#'
    · simp [index, hc]
    · simp [index, hc, hj]
      intro h1 h2
      exact absurd (by rw [h1, h2]; rfl) h

theorem processLine_active {F : Type} (ops : Float32Ops F) (n : Nat) (raw : Str)
    (st : State F) (hj : st.jumpFound = true) (c : Char) (cs : Str)
    (hl : TrimSpace raw = c :: cs) (hc : c ≠ '#') (h : c :: cs ≠ "JUMP!".toList) :
    processLine ops n raw st = dispatch ops n (Split ' ' (c :: cs)) st := by
  unfold processLine
  simp only [hl]
  simp [index, hc, hj]
  intro h1 h2
  exact absurd (by rw [h1, h2]; rfl) h

theorem dispatch_grid {F : Type} (ops : Float32Ops F) (n : Nat) (st : State F)
    (t1 t2 t3 : Str) (w h : Int) (hw : Atoi t1 = .ok w) (hh : Atoi t3 = .ok h) :
    dispatch ops n ["GRID:".toList, t1, t2, t3] st =
      .ok { st with gridWidth := w, gridHeight := h } := by
  simp [dispatch, index, orFail, hw, hh, bind, Outcome.bind, pure]

theorem dispatch_spacing {F : Type} (ops : Float32Ops F) (n : Nat) (st : State F)
    (t1 : Str) (v : F) (hv : ops.parseFloat t1 = .ok v) :
    dispatch ops n ["SPACING:".toList, t1] st =
      .ok { st with font := { st.font with Spacing := v } } := by
  simp [dispatch, index, orFail, hv, bind, Outcome.bind, pure]

theorem dispatch_scaling {F : Type} (ops : Float32Ops F) (n : Nat) (st : State F)
    (t1 t2 t3 : Str) (w h : F) (hw : ops.parseFloat t1 = .ok w)
    (hh : ops.parseFloat t3 = .ok h) :
    dispatch ops n ["SCALING:".toList, t1, t2, t3] st =
      .ok { st with scaleWidth := w, scaleHeight := h } := by
  simp [dispatch, index, orFail, hw, hh, bind, Outcome.bind, pure]

theorem dispatch_color {F : Type} (ops : Float32Ops F) (n : Nat) (st : State F)
    (rest : List Str) : dispatch ops n ("COLOR:".toList :: rest) st = .ok st := by
  simp [dispatch, index, bind, Outcome.bind, pure]

theorem dispatch_glyph {F : Type} (ops : Float32Ops F) (n : Nat) (st : State F)
    (t0 : Str) (rest : List Str) (h : ¬ isDirective t0) :
    dispatch ops n (t0 :: rest) st =
      (glyphLoop ops st n rest []).bind (fun ls => .ok { st with font :=
        { st.font with Glyphs := mapSet st.font.Glyphs t0 { Rune := t0, Lines := ls } } }) := by
  simp [isDirective] at h
  obtain ⟨h1, h2, h3, h4⟩ := h
  simp [dispatch, index, bind, Outcome.bind, pure, h1, h2, h3, h4]

/-! ## Inversion of one iteration -/

theorem Split_ne_nil (sep : Char) (s : Str) : Split sep s ≠ [] := by
  cases s with
  | nil => simp [Split]
  | cons c cs =>
    unfold Split
    split
    · simp
    · split <;> simp

theorem dispatch_count_error {F : Type} (ops : Float32Ops F) (n : Nat) (st : State F)
    (t0 : Str) (rest : List Str)
    (h : ((t0 = "GRID:".toList ∨ t0 = "SCALING:".toList) ∧ rest.length + 1 ≠ 4) ∨
      (t0 = "SPACING:".toList ∧ rest.length + 1 ≠ 2)) :
    dispatch ops n (t0 :: rest) st = .error .invalidNumberOfTokens := by
  rcases h with ⟨h | h, hlen⟩ | ⟨h, hlen⟩ <;> subst h <;>
    simp [dispatch, index, bind, Outcome.bind] <;> omega

/-- What a successful run of the `switch` statement did, by the first token. -/
theorem dispatch_ok_inv {F : Type} (ops : Float32Ops F) (n : Nat) (st st' : State F)
    (t0 : Str) (rest : List Str) (h : dispatch ops n (t0 :: rest) st = .ok st') :
    (t0 = "GRID:".toList ∧ ∃ t1 t2 t3 w ht, rest = [t1, t2, t3] ∧ Atoi t1 = .ok w ∧
        Atoi t3 = .ok ht ∧ st' = { st with gridWidth := w, gridHeight := ht }) ∨
      (t0 = "SPACING:".toList ∧ ∃ t1 v, rest = [t1] ∧ ops.parseFloat t1 = .ok v ∧
        st' = { st with font := { st.font with Spacing := v } }) ∨
      (t0 = "SCALING:".toList ∧ ∃ t1 t2 t3 w ht, rest = [t1, t2, t3] ∧
        ops.parseFloat t1 = .ok w ∧ ops.parseFloat t3 = .ok ht ∧
        st' = { st with scaleWidth := w, scaleHeight := ht }) ∨
      (t0 = "COLOR:".toList ∧ st' = st) ∨
      (¬ isDirective t0 ∧ ∃ segs, glyphLoop ops st n rest [] = .ok segs ∧
        st' = { st with font :=
          { st.font with Glyphs := mapSet st.font.Glyphs t0 { Rune := t0, Lines := segs } } }) := by
  by_cases hd : isDirective t0
  · rcases hd with hd | hd | hd | hd
    · left
      refine ⟨hd, ?_⟩
      subst hd
      rcases rest with _ | ⟨t1, _ | ⟨t2, _ | ⟨t3, _ | ⟨t4, r⟩⟩⟩⟩ <;>
        try (simp [dispatch, index, bind, Outcome.bind] at h; done)
      cases hw : Atoi t1 with
      | error k => simp [dispatch, index, bind, Outcome.bind, orFail, hw] at h
      | ok w =>
        cases hh : Atoi t3 with
        | error k => simp [dispatch, index, bind, Outcome.bind, orFail, hw, hh] at h
        | ok ht =>
          simp [dispatch, index, bind, Outcome.bind, orFail, hw, hh, pure] at h
          exact ⟨t1, t2, t3, w, ht, rfl, hw, hh, h.symm⟩
    · right; left
      refine ⟨hd, ?_⟩
      subst hd
      rcases rest with _ | ⟨t1, _ | ⟨t2, r⟩⟩ <;>
        try (simp [dispatch, index, bind, Outcome.bind] at h; done)
      cases hv : ops.parseFloat t1 with
      | error k => simp [dispatch, index, bind, Outcome.bind, orFail, hv] at h
      | ok v =>
        simp [dispatch, index, bind, Outcome.bind, orFail, hv, pure] at h
        exact ⟨t1, v, rfl, hv, h.symm⟩
    · right; right; left
      refine ⟨hd, ?_⟩
      subst hd
      rcases rest with _ | ⟨t1, _ | ⟨t2, _ | ⟨t3, _ | ⟨t4, r⟩⟩⟩⟩ <;>
        try (simp [dispatch, index, bind, Outcome.bind] at h; done)
      cases hw : ops.parseFloat t1 with
      | error k => simp [dispatch, index, bind, Outcome.bind, orFail, hw] at h
      | ok w =>
        cases hh : ops.parseFloat t3 with
        | error k => simp [dispatch, index, bind, Outcome.bind, orFail, hw, hh] at h
        | ok ht =>
          simp [dispatch, index, bind, Outcome.bind, orFail, hw, hh, pure] at h
          exact ⟨t1, t2, t3, w, ht, rfl, hw, hh, h.symm⟩
    · right; right; right; left
      refine ⟨hd, ?_⟩
      subst hd
      rw [dispatch_color] at h
      simpa using h.symm
  · right; right; right; right
    refine ⟨hd, ?_⟩
    rw [dispatch_glyph ops n st t0 rest hd] at h
    cases hg : glyphLoop ops st n rest [] with
    | error e => simp [hg, Outcome.bind] at h
    | panic q => simp [hg, Outcome.bind] at h
    | ok segs =>
      simp [hg, Outcome.bind] at h
      exact ⟨segs, rfl, h.symm⟩

/-- The defining conditions of the four ways an iteration of the loop can go. -/
theorem processLine_cases {F : Type} (ops : Float32Ops F) (n : Nat) (raw : Str)
    (st : State F) :
    ((TrimSpace raw = [] ∨ (TrimSpace raw).head? = some '#') ∧
        processLine ops n raw st = .ok st) ∨
      (TrimSpace raw = "JUMP!".toList ∧
        processLine ops n raw st = .ok { st with jumpFound := true }) ∨
      (TrimSpace raw ≠ "JUMP!".toList ∧ st.jumpFound = false ∧
        processLine ops n raw st = .ok st) ∨
      (TrimSpace raw ≠ [] ∧ (TrimSpace raw).head? ≠ some '#' ∧
        TrimSpace raw ≠ "JUMP!".toList ∧ st.jumpFound = true ∧
        ∃ t0 rest, Split ' ' (TrimSpace raw) = t0 :: rest ∧
          processLine ops n raw st = dispatch ops n (t0 :: rest) st) := by
  cases hl : TrimSpace raw with
  | nil => exact Or.inl ⟨Or.inl rfl, processLine_blank ops n raw st hl⟩
  | cons c cs =>
    by_cases hc : c = '#'
    · subst hc
      exact Or.inl ⟨Or.inr rfl, processLine_comment ops n raw st cs hl⟩
    · by_cases hjump : c :: cs = "JUMP!".toList
      · exact Or.inr (Or.inl ⟨hjump, processLine_jump ops n raw st (hl.trans hjump)⟩)
      · cases hj : st.jumpFound with
        | false =>
          exact Or.inr (Or.inr (Or.inl ⟨hjump, rfl,
            processLine_scanning ops n raw st hj (by rw [hl]; exact hjump)⟩))
        | true =>
          refine Or.inr (Or.inr (Or.inr ⟨by simp, by simpa using hc, hjump, rfl, ?_⟩))
          cases hs : Split ' ' (c :: cs) with
          | nil => exact absurd hs (Split_ne_nil _ _)
          | cons t0 rest =>
            refine ⟨t0, rest, rfl, ?_⟩
            rw [processLine_active ops n raw st hj c cs hl hc hjump, hs]

/-! ## The map of glyphs and the glyph case -/

theorem mapGet_mapSet_self {F : Type} (m : List (Str × Glyph F)) (k : Str) (g : Glyph F) :
    mapGet (mapSet m k g) k = some g := by
  induction m with
  | nil => simp [mapSet, mapGet]
  | cons kv rest ih =>
    obtain ⟨k', g'⟩ := kv
    by_cases hk : k' = k
    · simp [mapSet, mapGet, hk]
    · simp [mapSet, mapGet, hk, ih]

theorem mapGet_mapSet_ne {F : Type} (m : List (Str × Glyph F)) (k k' : Str) (g : Glyph F)
    (h : k ≠ k') : mapGet (mapSet m k g) k' = mapGet m k' := by
  induction m with
  | nil => simp [mapSet, mapGet, h]
  | cons kv rest ih =>
    obtain ⟨k0, g0⟩ := kv
    by_cases hk : k0 = k
    · subst hk
      simp [mapSet, mapGet, h]
    · by_cases hk' : k0 = k'
      · subst hk'
        simp [mapSet, mapGet, hk]
      · simp [mapSet, mapGet, hk, hk', ih]

theorem processLine_glyph {F : Type} (ops : Float32Ops F) (n : Nat) (raw : Str)
    (st : State F) (L : Str) (toks : List Str) (hj : st.jumpFound = true)
    (hg : isGlyphLine raw L toks) :
    processLine ops n raw st =
      (glyphLoop ops st n toks []).bind (fun ls => .ok { st with font :=
        { st.font with Glyphs := mapSet st.font.Glyphs L { Rune := L, Lines := ls } } }) := by
  obtain ⟨h1, h2, h3, h4, h5⟩ := hg
  rcases processLine_cases ops n raw st with ⟨h | h, _⟩ | ⟨h, _⟩ | ⟨_, h, _⟩ | ⟨_, _, _, _, t0, rest, hs, hp⟩
  · exact absurd h h1
  · exact absurd h h2
  · exact absurd h h3
  · rw [hj] at h; cases h
  · rw [h4] at hs
    cases hs
    rw [hp, dispatch_glyph ops n st L toks h5]

theorem convert_ok {F : Type} (ops : Float32Ops F) (st : State F) (a : Int)
    (hw : st.gridWidth ≠ 0) : ∃ p, convert ops st a = .ok p := by
  simp [convert, hw]

/-- The glyph loop over tokens whose complete pairs are all integers, under a
non-zero grid width: one segment for each complete pair, in token order. -/
theorem glyphLoop_ok {F : Type} (ops : Float32Ops F) (st : State F) (n : Nat)
    (hw : st.gridWidth ≠ 0) :
    ∀ (toks : List Str) (acc : List (Vector F × Vector F)),
      (∀ t ∈ toks.take (2 * (toks.length / 2)), ∃ a, Atoi t = .ok a) →
      ∃ segs, glyphLoop ops st n toks acc = .ok (acc ++ segs) ∧
        segs.length = toks.length / 2 ∧
        ∀ k, k < toks.length / 2 → ∃ ta tb a b pa pb,
          toks[2 * k]? = some ta ∧ toks[2 * k + 1]? = some tb ∧
          Atoi ta = .ok a ∧ Atoi tb = .ok b ∧
          convert ops st a = .ok pa ∧ convert ops st b = .ok pb ∧
          segs[k]? = some (pa, pb)
  | [], acc, _ => ⟨[], by simp [glyphLoop], by simp, by simp⟩
  | [t], acc, _ => ⟨[], by simp [glyphLoop], by simp, by simp⟩
  | ta :: tb :: rest, acc, h => by
    have hlen : (ta :: tb :: rest).length / 2 = rest.length / 2 + 1 := by
      simp only [List.length_cons]; omega
    have htake : (ta :: tb :: rest).take (2 * ((ta :: tb :: rest).length / 2)) =
        ta :: tb :: rest.take (2 * (rest.length / 2)) := by
      rw [hlen, show 2 * (rest.length / 2 + 1) = 2 * (rest.length / 2) + 1 + 1 from by ring]
      rfl
    rw [htake] at h
    obtain ⟨a, ha⟩ := h ta (by simp)
    obtain ⟨b, hb⟩ := h tb (by simp)
    obtain ⟨pa, hpa⟩ := convert_ok ops st a hw
    obtain ⟨pb, hpb⟩ := convert_ok ops st b hw
    obtain ⟨segs, hrun, hcount, hseg⟩ := glyphLoop_ok ops st n hw rest (acc ++ [(pa, pb)])
      (fun t ht => h t (by simp [ht]))
    refine ⟨(pa, pb) :: segs, ?_, ?_, ?_⟩
    · simp [glyphLoop, ha, hb, hpa, hpb, orFail, bind, Outcome.bind, hrun]
    · rw [hlen]; simp [hcount]
    · intro k hk
      cases k with
      | zero => exact ⟨ta, tb, a, b, pa, pb, by simp, by simp, ha, hb, hpa, hpb, by simp⟩
      | succ k =>
        rw [hlen] at hk
        obtain ⟨ta', tb', a', b', pa', pb', h1, h2, h3, h4, h5, h6, h7⟩ :=
          hseg k (by omega)
        refine ⟨ta', tb', a', b', pa', pb', ?_, ?_, h3, h4, h5, h6, ?_⟩
        · rw [show 2 * (k + 1) = 2 * k + 1 + 1 from by ring]; simpa using h1
        · rw [show 2 * (k + 1) + 1 = 2 * k + 1 + 1 + 1 from by ring]; simpa using h2
        · simpa using h7

/-! ## Line numbers only label errors -/

theorem forgetLine_bind {α β : Type} (x y : Outcome α) (f g : α → Outcome β)
    (hxy : x.forgetLine = y.forgetLine) (hfg : ∀ a, (f a).forgetLine = (g a).forgetLine) :
    (x.bind f).forgetLine = (y.bind g).forgetLine := by
  cases x <;> cases y <;> simp [Outcome.forgetLine, Outcome.bind] at hxy ⊢
  · subst hxy; exact hfg _
  · exact hxy
  · exact hxy

theorem glyphLoop_lineno {F : Type} (ops : Float32Ops F) (st : State F) (n m : Nat) :
    ∀ (toks : List Str) (acc : List (Vector F × Vector F)),
      (glyphLoop ops st n toks acc).forgetLine = (glyphLoop ops st m toks acc).forgetLine
  | [], acc => by simp [glyphLoop]
  | [t], acc => by simp [glyphLoop]
  | ta :: tb :: rest, acc => by
    cases ha : Atoi ta with
    | error k =>
      simp [glyphLoop, ha, orFail, bind, Outcome.bind, Outcome.forgetLine,
        ParseError.forgetLine]
    | ok a =>
      cases hb : Atoi tb with
      | error k =>
        simp [glyphLoop, ha, hb, orFail, bind, Outcome.bind, Outcome.forgetLine,
          ParseError.forgetLine]
      | ok b =>
        cases hpa : convert ops st a with
        | error e => simp [glyphLoop, ha, hb, hpa, orFail, bind, Outcome.bind]
        | panic q => simp [glyphLoop, ha, hb, hpa, orFail, bind, Outcome.bind]
        | ok pa =>
          cases hpb : convert ops st b with
          | error e => simp [glyphLoop, ha, hb, hpa, hpb, orFail, bind, Outcome.bind]
          | panic q => simp [glyphLoop, ha, hb, hpa, hpb, orFail, bind, Outcome.bind]
          | ok pb =>
            simp only [glyphLoop, ha, hb, hpa, hpb, orFail, bind, Outcome.bind]
            exact glyphLoop_lineno ops st n m rest (acc ++ [(pa, pb)])

theorem dispatch_directive_lineno {F : Type} (ops : Float32Ops F) (n m : Nat)
    (st : State F) (t0 : Str) (rest : List Str) (h : isDirective t0) :
    dispatch ops n (t0 :: rest) st = dispatch ops m (t0 :: rest) st := by
  rcases h with h | h | h | h <;> subst h <;> simp [dispatch, index, bind, Outcome.bind]

theorem dispatch_lineno {F : Type} (ops : Float32Ops F) (n m : Nat) (st : State F)
    (tokens : List Str) :
    (dispatch ops n tokens st).forgetLine = (dispatch ops m tokens st).forgetLine := by
  cases tokens with
  | nil => simp [dispatch, index, bind, Outcome.bind]
  | cons t0 rest =>
    by_cases h : isDirective t0
    · rw [dispatch_directive_lineno ops n m st t0 rest h]
    · rw [dispatch_glyph ops n st t0 rest h, dispatch_glyph ops m st t0 rest h]
      exact forgetLine_bind _ _ _ _ (glyphLoop_lineno ops st n m rest []) (fun _ => rfl)

theorem processLine_lineno {F : Type} (ops : Float32Ops F) (n m : Nat) (raw : Str)
    (st : State F) :
    (processLine ops n raw st).forgetLine = (processLine ops m raw st).forgetLine := by
  unfold processLine
  cases TrimSpace raw with
  | nil => simp
  | cons c cs =>
    simp only [index, List.getElem?_cons_zero]
    split_ifs <;> first | rfl | exact dispatch_lineno ops n m st _

theorem parseLines_lineno {F : Type} (ops : Float32Ops F) (ls : List Str) :
    ∀ (n m : Nat) (st : State F),
      (parseLines ops n ls st).forgetLine = (parseLines ops m ls st).forgetLine := by
  induction ls with
  | nil => intro n m st; rfl
  | cons l ls ih =>
    intro n m st
    have h := processLine_lineno ops n m l st
    simp only [parseLines]
    cases h1 : processLine ops n l st <;> cases h2 : processLine ops m l st <;>
      rw [h1, h2] at h <;> simp [Outcome.forgetLine] at h ⊢
    · subst h; exact ih _ _ _
    · exact h
    · exact h

/-! ## Blank lines and comments -/

theorem TrimSpace_blank (l : Str) (h : ∀ c ∈ l, IsSpace c = true) : TrimSpace l = [] := by
  unfold TrimSpace
  rw [List.dropWhile_eq_nil_iff.mpr h]
  rfl

theorem TrimSpace_comment (ws rest : Str) (h : ∀ c ∈ ws, IsSpace c = true) :
    ∃ t, TrimSpace (ws ++ '#' :: rest) = '#' :: t := by
  have hd : (ws ++ '#' :: rest).dropWhile IsSpace = '#' :: rest := by
    rw [List.dropWhile_append_of_pos h]
    exact List.dropWhile_cons_of_neg (by decide)
  have ht : TrimSpace (ws ++ '#' :: rest) = List.rdropWhile IsSpace ('#' :: rest) := by
    unfold TrimSpace List.rdropWhile
    rw [hd]
  rw [ht]
  have hpre : List.rdropWhile IsSpace ('#' :: rest) <+: '#' :: rest :=
    List.rdropWhile_prefix IsSpace _
  cases hr : List.rdropWhile IsSpace ('#' :: rest) with
  | nil =>
    have := List.rdropWhile_eq_nil_iff.mp hr '#' (List.mem_cons_self _ _)
    exact absurd this (by decide)
  | cons c t =>
    rw [hr] at hpre
    obtain ⟨u, hu⟩ := hpre
    simp only [List.cons_append, List.cons.injEq] at hu
    exact ⟨t, by rw [hu.1]⟩

theorem processLine_noop {F : Type} (ops : Float32Ops F) (n : Nat) (l : Str)
    (st : State F) (hl : isBlankOrComment l) : processLine ops n l st = .ok st := by
  rcases hl with h | ⟨ws, rest, rfl, h⟩
  · exact processLine_blank ops n l st (TrimSpace_blank l h)
  · obtain ⟨t, ht⟩ := TrimSpace_comment ws rest h
    exact processLine_comment ops n _ st t ht

theorem parseLines_insert_noop {F : Type} (ops : Float32Ops F) (l : Str)
    (hl : isBlankOrComment l) (post : List Str) (pre : List Str) :
    ∀ (n : Nat) (st : State F),
      (parseLines ops n (pre ++ l :: post) st).forgetLine =
        (parseLines ops n (pre ++ post) st).forgetLine := by
  induction pre with
  | nil =>
    intro n st
    simp only [List.nil_append, parseLines, processLine_noop ops n l st hl]
    exact parseLines_lineno ops post (n + 1) n st
  | cons x pre ih =>
    intro n st
    simp only [List.cons_append, parseLines]
    cases processLine ops n x st with
    | ok st1 => exact ih (n + 1) st1
    | error e => rfl
    | panic q => rfl

theorem Parse_forgetLine {F : Type} (ops : Float32Ops F) (t1 t2 : Str)
    (h : (parseLines ops 0 (Split '\n' t2) (initState ops)).forgetLine =
      (parseLines ops 0 (Split '\n' t1) (initState ops)).forgetLine) :
    (∀ f, Parse ops t2 = .ok f ↔ Parse ops t1 = .ok f) ∧
      ((∃ e, Parse ops t2 = .error e) ↔ (∃ e, Parse ops t1 = .error e)) ∧
      (∀ q, Parse ops t2 = .panic q ↔ Parse ops t1 = .panic q) := by
  unfold Parse
  cases h1 : parseLines ops 0 (Split '\n' t1) (initState ops) <;>
    cases h2 : parseLines ops 0 (Split '\n' t2) (initState ops) <;>
    rw [h1, h2] at h <;> simp [Outcome.forgetLine] at h ⊢
  · subst h; simp
  · subst h; simp

/-! ## The loop over a text cut in two, and what an iteration leaves unchanged -/

theorem Split_head (sep : Char) (s t0 : Str) (rest : List Str)
    (h : Split sep s = t0 :: rest) : ∃ u, s = t0 ++ u := by
  induction s generalizing t0 rest with
  | nil => simp [Split] at h; exact ⟨[], by simp [h.1]⟩
  | cons c cs ih =>
    unfold Split at h
    split at h
    · simp at h; exact ⟨c :: cs, by simp [← h.1]⟩
    · cases hs : Split sep cs with
      | nil => exact absurd hs (Split_ne_nil _ _)
      | cons w ws =>
        rw [hs] at h
        simp at h
        obtain ⟨u, hu⟩ := ih w ws hs
        exact ⟨u, by rw [← h.1, hu]; rfl⟩

theorem processLine_of_first_token {F : Type} (ops : Float32Ops F) (n : Nat) (raw : Str)
    (st : State F) (t0 : Str) (rest : List Str) (hj : st.jumpFound = true)
    (htok : Split ' ' (TrimSpace raw) = t0 :: rest) (hd : isDirective t0) :
    processLine ops n raw st = dispatch ops n (t0 :: rest) st := by
  obtain ⟨u, hu⟩ := Split_head ' ' _ t0 rest htok
  rcases processLine_cases ops n raw st with
    ⟨h | h, _⟩ | ⟨h, _⟩ | ⟨_, h, _⟩ | ⟨_, _, _, _, t, r, hs, hp⟩
  · rw [h] at hu
    rcases hd with hd | hd | hd | hd <;> subst hd <;> simp at hu
  · rw [hu] at h
    rcases hd with hd | hd | hd | hd <;> subst hd <;> simp at h
  · rw [hu] at h
    rcases hd with hd | hd | hd | hd <;> subst hd <;> simp at h
  · rw [hj] at h; cases h
  · rw [htok] at hs
    cases hs
    exact hp

theorem parseLines_append {F : Type} (ops : Float32Ops F) (a b : List Str) :
    ∀ (n : Nat) (st : State F),
      parseLines ops n (a ++ b) st =
        (parseLines ops n a st).bind (parseLines ops (n + a.length) b) := by
  induction a with
  | nil => intro n st; simp [parseLines, Outcome.bind]
  | cons x a ih =>
    intro n st
    simp only [List.cons_append, parseLines, List.length_cons, List.append_eq]
    cases processLine ops n x st with
    | ok st1 =>
      dsimp only
      rw [ih (n + 1) st1, show n + 1 + a.length = n + (a.length + 1) from by ring]
    | error e => rfl
    | panic q => rfl

theorem processLine_jumpFound {F : Type} (ops : Float32Ops F) (n : Nat) (raw : Str)
    (st st' : State F) (h : processLine ops n raw st = .ok st') :
    (st.jumpFound = true → st'.jumpFound = true) ∧
      (TrimSpace raw = "JUMP!".toList → st'.jumpFound = true) := by
  rcases processLine_cases ops n raw st with
    ⟨_, hp⟩ | ⟨hjump, hp⟩ | ⟨hnj, _, hp⟩ | ⟨_, _, hnj, hj, t, r, _, hp⟩
  · rw [hp] at h; cases h
    exact ⟨id, fun hjump => by
      rcases ‹TrimSpace raw = [] ∨ _› with h0 | h0 <;> rw [hjump] at h0 <;> simp at h0⟩
  · rw [hp] at h; cases h
    exact ⟨fun _ => rfl, fun _ => rfl⟩
  · rw [hp] at h; cases h
    exact ⟨id, fun hjump => absurd hjump hnj⟩
  · rw [hp] at h
    refine ⟨fun _ => ?_, fun hjump => absurd hjump hnj⟩
    rcases dispatch_ok_inv ops n st st' t r h with
      ⟨_, _, _, _, _, _, _, _, _, rfl⟩ | ⟨_, _, _, _, _, rfl⟩ |
      ⟨_, _, _, _, _, _, _, _, _, rfl⟩ | ⟨_, rfl⟩ | ⟨_, _, _, rfl⟩ <;> exact hj

theorem parseLines_jumpFound {F : Type} (ops : Float32Ops F) (ls : List Str) :
    ∀ (n : Nat) (st st' : State F), parseLines ops n ls st = .ok st' →
      (st.jumpFound = true ∨ ∃ j ∈ ls, TrimSpace j = "JUMP!".toList) →
      st'.jumpFound = true := by
  induction ls with
  | nil =>
    intro n st st' h hj
    simp only [parseLines, Outcome.ok.injEq] at h
    subst h
    rcases hj with hj | ⟨j, hj, _⟩
    · exact hj
    · cases hj
  | cons l ls ih =>
    intro n st st' h hj
    simp only [parseLines] at h
    cases hp : processLine ops n l st with
    | error e => rw [hp] at h; cases h
    | panic q => rw [hp] at h; cases h
    | ok st1 =>
      rw [hp] at h
      obtain ⟨hmono, hjump⟩ := processLine_jumpFound ops n l st st1 hp
      refine ih (n + 1) st1 st' h ?_
      rcases hj with hj | ⟨j, hj, hjj⟩
      · exact Or.inl (hmono hj)
      · rcases List.mem_cons.mp hj with rfl | hj
        · exact Or.inl (hjump hjj)
        · exact Or.inr ⟨j, hj, hjj⟩

/-- What a successful run of the glyph loop returned: the segments it was given,
followed by one segment for each complete pair of tokens, in token order. -/
theorem glyphLoop_ok_inv {F : Type} (ops : Float32Ops F) (st : State F) (n : Nat) :
    ∀ (toks : List Str) (acc out : List (Vector F × Vector F)),
      glyphLoop ops st n toks acc = .ok out →
      ∃ segs, out = acc ++ segs ∧ segs.length = toks.length / 2 ∧
        ∀ k, k < toks.length / 2 → ∃ ta tb a b pa pb,
          toks[2 * k]? = some ta ∧ toks[2 * k + 1]? = some tb ∧
          Atoi ta = .ok a ∧ Atoi tb = .ok b ∧
          convert ops st a = .ok pa ∧ convert ops st b = .ok pb ∧
          segs[k]? = some (pa, pb)
  | [], acc, out, h => by
    simp only [glyphLoop, Outcome.ok.injEq] at h
    exact ⟨[], by simp [h], by simp, by simp⟩
  | [t], acc, out, h => by
    simp only [glyphLoop, Outcome.ok.injEq] at h
    exact ⟨[], by simp [h], by simp, by simp⟩
  | ta :: tb :: rest, acc, out, h => by
    have hlen : (ta :: tb :: rest).length / 2 = rest.length / 2 + 1 := by
      simp only [List.length_cons]; omega
    cases ha : Atoi ta with
    | error e => simp [glyphLoop, ha, orFail, bind, Outcome.bind] at h
    | ok a =>
      cases hb : Atoi tb with
      | error e => simp [glyphLoop, ha, hb, orFail, bind, Outcome.bind] at h
      | ok b =>
        cases hpa : convert ops st a with
        | error e => simp [glyphLoop, ha, hb, hpa, orFail, bind, Outcome.bind] at h
        | panic q => simp [glyphLoop, ha, hb, hpa, orFail, bind, Outcome.bind] at h
        | ok pa =>
          cases hpb : convert ops st b with
          | error e => simp [glyphLoop, ha, hb, hpa, hpb, orFail, bind, Outcome.bind] at h
          | panic q => simp [glyphLoop, ha, hb, hpa, hpb, orFail, bind, Outcome.bind] at h
          | ok pb =>
            simp only [glyphLoop, ha, hb, hpa, hpb, orFail, bind, Outcome.bind] at h
            obtain ⟨segs, hout, hcount, hseg⟩ :=
              glyphLoop_ok_inv ops st n rest (acc ++ [(pa, pb)]) out h
            refine ⟨(pa, pb) :: segs, by simp [hout], by rw [hlen]; simp [hcount], ?_⟩
            intro k hk
            cases k with
            | zero =>
              exact ⟨ta, tb, a, b, pa, pb, by simp, by simp, ha, hb, hpa, hpb, by simp⟩
            | succ k =>
              rw [hlen] at hk
              obtain ⟨ta', tb', a', b', pa', pb', h1, h2, h3, h4, h5, h6, h7⟩ :=
                hseg k (by omega)
              refine ⟨ta', tb', a', b', pa', pb', ?_, ?_, h3, h4, h5, h6, ?_⟩
              · rw [show 2 * (k + 1) = 2 * k + 1 + 1 from by ring]; simpa using h1
              · rw [show 2 * (k + 1) + 1 = 2 * k + 1 + 1 + 1 from by ring]; simpa using h2
              · simpa using h7

theorem processLine_glyph_frame {F : Type} (ops : Float32Ops F) (n : Nat) (raw : Str)
    (st st' : State F) (L : Str) (h : processLine ops n raw st = .ok st')
    (hL : ¬ ∃ toks, isGlyphLine raw L toks) :
    mapGet st'.font.Glyphs L = mapGet st.font.Glyphs L := by
  rcases processLine_cases ops n raw st with
    ⟨_, hp⟩ | ⟨_, hp⟩ | ⟨_, _, hp⟩ | ⟨h1, h2, h3, _, t, r, hs, hp⟩
  · rw [hp] at h; cases h; rfl
  · rw [hp] at h; cases h; rfl
  · rw [hp] at h; cases h; rfl
  · rw [hp] at h
    rcases dispatch_ok_inv ops n st st' t r h with
      ⟨_, _, _, _, _, _, _, _, _, rfl⟩ | ⟨_, _, _, _, _, rfl⟩ |
      ⟨_, _, _, _, _, _, _, _, _, rfl⟩ | ⟨_, rfl⟩ | ⟨hd, _, _, rfl⟩
    · rfl
    · rfl
    · rfl
    · rfl
    · have hne : t ≠ L := fun e => hL ⟨r, h1, h2, h3, e ▸ hs, e ▸ hd⟩
      exact mapGet_mapSet_ne _ _ _ _ hne

theorem parseLines_glyph_frame {F : Type} (ops : Float32Ops F) (L : Str) (ls : List Str) :
    ∀ (n : Nat) (st st' : State F), parseLines ops n ls st = .ok st' →
      (∀ l ∈ ls, ¬ ∃ toks, isGlyphLine l L toks) →
      mapGet st'.font.Glyphs L = mapGet st.font.Glyphs L := by
  induction ls with
  | nil =>
    intro n st st' h _
    simp only [parseLines, Outcome.ok.injEq] at h
    rw [h]
  | cons l ls ih =>
    intro n st st' h hL
    simp only [parseLines] at h
    cases hp : processLine ops n l st with
    | error e => rw [hp] at h; cases h
    | panic q => rw [hp] at h; cases h
    | ok st1 =>
      rw [hp] at h
      rw [ih (n + 1) st1 st' h (fun x hx => hL x (List.mem_cons_of_mem _ hx)),
        processLine_glyph_frame ops n l st st1 L hp (hL l (List.mem_cons_self _ _))]

theorem Parse_ok_inv {F : Type} (ops : Float32Ops F) (text : Str) (f : Font F)
    (h : Parse ops text = .ok f) :
    ∃ st, parseLines ops 0 (Split '\n' text) (initState ops) = .ok st ∧ st.font = f := by
  unfold Parse at h
  cases hp : parseLines ops 0 (Split '\n' text) (initState ops) with
  | error e => rw [hp] at h; cases h
  | panic q => rw [hp] at h; cases h
  | ok st => rw [hp] at h; cases h; exact ⟨st, rfl, rfl⟩

/-- A successful run of the loop over `pre ++ l :: post`, cut at the line `l`. -/
theorem parseLines_cut {F : Type} (ops : Float32Ops F) (pre post : List Str) (l : Str)
    (st0 stf : State F) (h : parseLines ops 0 (pre ++ l :: post) st0 = .ok stf) :
    ∃ st st1, parseLines ops 0 pre st0 = .ok st ∧
      processLine ops pre.length l st = .ok st1 ∧
      parseLines ops (pre.length + 1) post st1 = .ok stf := by
  rw [parseLines_append] at h
  cases hpre : parseLines ops 0 pre st0 with
  | error e => rw [hpre] at h; cases h
  | panic q => rw [hpre] at h; cases h
  | ok st =>
    rw [hpre] at h
    simp only [Outcome.bind, parseLines, Nat.zero_add] at h
    cases hp : processLine ops pre.length l st with
    | error e => rw [hp] at h; cases h
    | panic q => rw [hp] at h; cases h
    | ok st1 => rw [hp] at h; exact ⟨st, st1, rfl, hp, h⟩

theorem processLine_spacing_frame {F : Type} (ops : Float32Ops F) (n : Nat) (raw : Str)
    (st st' : State F) (h : processLine ops n raw st = .ok st')
    (hs : st.jumpFound = false ∨ firstToken raw ≠ some "SPACING:".toList) :
    st'.font.Spacing = st.font.Spacing := by
  rcases processLine_cases ops n raw st with
    ⟨_, hp⟩ | ⟨_, hp⟩ | ⟨_, _, hp⟩ | ⟨_, _, _, hj, t, r, htok, hp⟩
  · rw [hp] at h; cases h; rfl
  · rw [hp] at h; cases h; rfl
  · rw [hp] at h; cases h; rfl
  · rw [hp] at h
    have hne : t ≠ "SPACING:".toList := by
      rcases hs with hs | hs
      · rw [hj] at hs; cases hs
      · intro e
        apply hs
        simp [firstToken, htok, e]
    rcases dispatch_ok_inv ops n st st' t r h with
      ⟨_, _, _, _, _, _, _, _, _, rfl⟩ | ⟨ht, _⟩ |
      ⟨_, _, _, _, _, _, _, _, _, rfl⟩ | ⟨_, rfl⟩ | ⟨_, _, _, rfl⟩
    · rfl
    · exact absurd ht hne
    · rfl
    · rfl
    · rfl

theorem processLine_jumpFound_inv {F : Type} (ops : Float32Ops F) (n : Nat) (raw : Str)
    (st st' : State F) (h : processLine ops n raw st = .ok st')
    (h0 : st.jumpFound = false) (h1 : st'.jumpFound = true) :
    TrimSpace raw = "JUMP!".toList := by
  rcases processLine_cases ops n raw st with
    ⟨_, hp⟩ | ⟨hjump, _⟩ | ⟨_, _, hp⟩ | ⟨_, _, _, hj, _⟩
  · rw [hp] at h; cases h; rw [h0] at h1; cases h1
  · exact hjump
  · rw [hp] at h; cases h; rw [h0] at h1; cases h1
  · rw [h0] at hj; cases hj

theorem parseLines_spacing_frame {F : Type} (ops : Float32Ops F) (ls : List Str) :
    ∀ (n : Nat) (st st' : State F), parseLines ops n ls st = .ok st' →
      (st.jumpFound = true → ∀ l ∈ ls, firstToken l ≠ some "SPACING:".toList) →
      (∀ a l b, ls = a ++ l :: b → (∃ j ∈ a, TrimSpace j = "JUMP!".toList) →
        firstToken l ≠ some "SPACING:".toList) →
      st'.font.Spacing = st.font.Spacing := by
  induction ls with
  | nil =>
    intro n st st' h _ _
    simp only [parseLines, Outcome.ok.injEq] at h
    rw [h]
  | cons l ls ih =>
    intro n st st' h H1 H2
    simp only [parseLines] at h
    cases hp : processLine ops n l st with
    | error e => rw [hp] at h; cases h
    | panic q => rw [hp] at h; cases h
    | ok st1 =>
      rw [hp] at h
      have hstep : st1.font.Spacing = st.font.Spacing := by
        apply processLine_spacing_frame ops n l st st1 hp
        cases hj : st.jumpFound with
        | false => exact Or.inl rfl
        | true => exact Or.inr (H1 hj l (List.mem_cons_self _ _))
      rw [← hstep]
      refine ih (n + 1) st1 st' h ?_ ?_
      · intro hj1 l' hl'
        cases hj : st.jumpFound with
        | true => exact H1 hj l' (List.mem_cons_of_mem _ hl')
        | false =>
          have hjump := processLine_jumpFound_inv ops n l st st1 hp hj hj1
          obtain ⟨a, b, hab⟩ := List.append_of_mem hl'
          exact H2 (l :: a) l' b (by rw [hab]; rfl) ⟨l, List.mem_cons_self _ _, hjump⟩
      · intro a l' b hab ⟨j, hja, hj⟩
        exact H2 (l :: a) l' b (by rw [hab]; rfl) ⟨j, List.mem_cons_of_mem _ hja, hj⟩

/-! ## The conversion of a grid index -/

/-- C1, counterexample. With `GRID: 5 x 5` and `SCALING: 1 x 1` the index `-1` is
converted to the point `(-1, 0)`, whereas floor division with its non-negative
remainder gives the cell `(4, -1)`. -/
theorem convert_minus_one_is_not_floor :
    Parse decimalOps "JUMP!\nGRID: 5 x 5\nSCALING: 1 x 1\nA -1 7".toList =
        .ok ⟨⟨0, 0⟩, [("A".toList, ⟨"A".toList,
          [(⟨⟨-1, 0⟩, ⟨0, 0⟩⟩, ⟨⟨2, 0⟩, ⟨1, 0⟩⟩)]⟩)]⟩ ∧
      (⟨decimalOps.mul (decimalOps.ofInt (Int.fmod (-1) 5)) ⟨1, 0⟩,
        decimalOps.mul (decimalOps.ofInt (Int.fdiv (-1) 5)) ⟨1, 0⟩⟩ : Vector Dec) =
        ⟨⟨4, 0⟩, ⟨-1, 0⟩⟩ := by
  constructor <;> decide

/-- C1, as amended. For every index `a` read by `Atoi` from a token and every
positive `gridWidth`, `convert` returns the point whose `X` is `float32(a rem w) *
scaleWidth` and whose `Y` is `float32(a quo w) * scaleHeight`, where `quo` truncates
toward zero and `rem` is its remainder; for `a ≥ 0` these are floor division and the
non-negative remainder. -/
theorem convert_truncated_division {F : Type} (ops : Float32Ops F) (st : State F)
    (tok : Str) (a : Int) (ha : Atoi tok = .ok a) (hw : 0 < st.gridWidth) :
    convert ops st a = .ok
        { X := ops.mul (ops.ofInt (Int.tmod a st.gridWidth)) st.scaleWidth
          Y := ops.mul (ops.ofInt (Int.tdiv a st.gridWidth)) st.scaleHeight } ∧
      (0 ≤ a → convert ops st a = .ok
        { X := ops.mul (ops.ofInt (Int.fmod a st.gridWidth)) st.scaleWidth
          Y := ops.mul (ops.ofInt (Int.fdiv a st.gridWidth)) st.scaleHeight }) := by
  obtain ⟨h1, h2⟩ := Atoi_range ha
  obtain ⟨h3, h4⟩ := tdiv_range hw h1 h2
  have hne : st.gridWidth ≠ 0 := by omega
  have hconv : convert ops st a = .ok
      { X := ops.mul (ops.ofInt (Int.tmod a st.gridWidth)) st.scaleWidth
        Y := ops.mul (ops.ofInt (Int.tdiv a st.gridWidth)) st.scaleHeight } := by
    simp [convert, hne, wrapInt_of_range h3 h4]
  refine ⟨hconv, fun h0 => ?_⟩
  rw [hconv, Int.fmod_eq_tmod h0 hw.le, Int.fdiv_eq_tdiv h0 hw.le]

/-- C1, witness: under `GRID: 5 x 5` and `SCALING: 0.2 x 0.2` the index `7` lies in
the cell `(2, 1)` and becomes the point `(0.4, 0.2)`. -/
theorem convert_truncated_division_witness :
    convert decimalOps
        { font := ⟨⟨0, 0⟩, []⟩, gridWidth := 5, gridHeight := 5, scaleWidth := ⟨2, 1⟩,
          scaleHeight := ⟨2, 1⟩, jumpFound := true } 7 =
      .ok ⟨decimalOps.mul (decimalOps.ofInt 2) ⟨2, 1⟩,
        decimalOps.mul (decimalOps.ofInt 1) ⟨2, 1⟩⟩ :=
  (convert_truncated_division decimalOps
    { font := ⟨⟨0, 0⟩, []⟩, gridWidth := 5, gridHeight := 5, scaleWidth := ⟨2, 1⟩,
      scaleHeight := ⟨2, 1⟩, jumpFound := true } "7".toList 7 rfl (by decide)).2
    (by decide)

/-! ## Glyph lines and the grid width -/

/-- C2, the code at the failing inputs. A glyph line with an index pair reached
before any `GRID:` line makes `Parse` panic with an integer division by zero, and
so does one reached after `GRID: 0 x 5`; after `GRID: -5 x 5` the call returns a
font whose coordinates are computed from the negative width. -/
theorem Parse_panics_without_grid {F : Type} (ops : Float32Ops F) :
    Parse ops "JUMP!\nA 0 1".toList = .panic .divideByZero ∧
      Parse ops "JUMP!\nGRID: 0 x 5\nA 0 1".toList = .panic .divideByZero ∧
      Parse ops "JUMP!\nGRID: -5 x 5\nA 7 -7".toList =
        .ok ⟨ops.zero, [("A".toList, ⟨"A".toList,
          [(⟨ops.mul (ops.ofInt 2) ops.zero, ops.mul (ops.ofInt (-1)) ops.zero⟩,
            ⟨ops.mul (ops.ofInt (-2)) ops.zero, ops.mul (ops.ofInt 1) ops.zero⟩)]⟩)]⟩ :=
  ⟨rfl, rfl, rfl⟩

/-- C3, the code at the failing input. The token `x` stands on the third line of the
text; the error returned for it carries the number 2, the index of that line counted
from zero. -/
theorem Parse_error_line_number_from_zero {F : Type} (ops : Float32Ops F) :
    Parse ops "JUMP!\nGRID: 5 x 5\nA 0 x".toList =
      .error (.readIndex 2 "x".toList ⟨"x".toList, .ErrSyntax⟩) :=
  rfl

/-! ## The end-to-end scenario -/

/-- C4. On the six-line demonstration text `Parse` returns a font whose `Spacing` is
the value read from `0.01` and whose only glyph is stored under `A`, has `Rune`
`A` and has the two segments `((0,0),(1,0))` and `((1,0),(1,1))`, in this order.
The scale `1.0` is read as a value `one` that leaves `float32(n)` unchanged under
the product. -/
theorem Parse_demo {F : Type} (ops : Float32Ops F) (s one : F)
    (hs : ops.parseFloat "0.01".toList = .ok s)
    (hone : ops.parseFloat "1.0".toList = .ok one)
    (hmul : ∀ n : Int, ops.mul (ops.ofInt n) one = ops.ofInt n) :
    Parse ops
        "# demo\nJUMP!\nGRID: 2 x 2\nSPACING: 0.01\nSCALING: 1.0 x 1.0\nA 0 1 1 3".toList =
      .ok ⟨s, [("A".toList, ⟨"A".toList,
        [(⟨ops.ofInt 0, ops.ofInt 0⟩, ⟨ops.ofInt 1, ops.ofInt 0⟩),
          (⟨ops.ofInt 1, ops.ofInt 0⟩, ⟨ops.ofInt 1, ops.ofInt 1⟩)]⟩)]⟩ := by
  have e0 : ∀ st : State F, processLine ops 0 "# demo".toList st = .ok st := fun st =>
    processLine_comment ops 0 _ st " demo".toList rfl
  have e1 : ∀ st : State F, processLine ops 1 "JUMP!".toList st =
      .ok { st with jumpFound := true } := fun st => processLine_jump ops 1 _ st rfl
  have e2 : ∀ st : State F, st.jumpFound = true →
      processLine ops 2 "GRID: 2 x 2".toList st =
        .ok { st with gridWidth := 2, gridHeight := 2 } := fun st hj => by
    rw [processLine_active ops 2 "GRID: 2 x 2".toList st hj 'G' "RID: 2 x 2".toList rfl (by decide) (by decide)]
    exact dispatch_grid ops 2 st "2".toList "x".toList "2".toList 2 2 rfl rfl
  have e3 : ∀ st : State F, st.jumpFound = true →
      processLine ops 3 "SPACING: 0.01".toList st =
        .ok { st with font := { st.font with Spacing := s } } := fun st hj => by
    rw [processLine_active ops 3 "SPACING: 0.01".toList st hj 'S' "PACING: 0.01".toList rfl (by decide) (by decide)]
    exact dispatch_spacing ops 3 st "0.01".toList s hs
  have e4 : ∀ st : State F, st.jumpFound = true →
      processLine ops 4 "SCALING: 1.0 x 1.0".toList st =
        .ok { st with scaleWidth := one, scaleHeight := one } := fun st hj => by
    rw [processLine_active ops 4 "SCALING: 1.0 x 1.0".toList st hj 'S'
      "CALING: 1.0 x 1.0".toList rfl (by decide) (by decide)]
    exact dispatch_scaling ops 4 st "1.0".toList "x".toList "1.0".toList one one hone hone
  have hsplit : Split '\n'
      "# demo\nJUMP!\nGRID: 2 x 2\nSPACING: 0.01\nSCALING: 1.0 x 1.0\nA 0 1 1 3".toList =
      ["# demo".toList, "JUMP!".toList, "GRID: 2 x 2".toList, "SPACING: 0.01".toList,
        "SCALING: 1.0 x 1.0".toList, "A 0 1 1 3".toList] := by decide
  unfold Parse
  rw [hsplit]
  simp only [parseLines, e0, e1]
  rw [e2 _ rfl]
  simp only []
  rw [e3 _ rfl]
  simp only []
  rw [e4 _ rfl]
  simp only []
  rw [processLine_active ops 5 "A 0 1 1 3".toList _ rfl 'A' " 0 1 1 3".toList rfl
    (by decide) (by decide)]
  rw [show Split ' ' ('A' :: " 0 1 1 3".toList) =
    "A".toList :: ["0".toList, "1".toList, "1".toList, "3".toList] from by decide]
  rw [dispatch_glyph ops 5 _ _ _ (by decide)]
  have a0 : Atoi ['0'] = .ok 0 := rfl
  have a1 : Atoi ['1'] = .ok 1 := rfl
  have a3 : Atoi ['3'] = .ok 3 := rfl
  simp [glyphLoop, a0, a1, a3, orFail, convert, initState, bind, Outcome.bind, mapSet, hmul,
    wrapInt, Int.tmod, Int.tdiv]

/-- C4, witness: the demonstration text under exact decimal arithmetic. -/
theorem Parse_demo_witness :
    Parse decimalOps
        "# demo\nJUMP!\nGRID: 2 x 2\nSPACING: 0.01\nSCALING: 1.0 x 1.0\nA 0 1 1 3".toList =
      .ok ⟨⟨1, 2⟩, [("A".toList, ⟨"A".toList,
        [(⟨⟨0, 0⟩, ⟨0, 0⟩⟩, ⟨⟨1, 0⟩, ⟨0, 0⟩⟩), (⟨⟨1, 0⟩, ⟨0, 0⟩⟩, ⟨⟨1, 0⟩, ⟨1, 0⟩⟩)]⟩)]⟩ :=
  Parse_demo decimalOps ⟨1, 2⟩ ⟨1, 0⟩ rfl rfl (fun n => by simp [decimalOps, Dec.norm])

/-! ## Texts without `JUMP!` -/

theorem parseLines_scanning {F : Type} (ops : Float32Ops F) (ls : List Str) :
    ∀ (n : Nat) (st : State F), st.jumpFound = false →
      (∀ l ∈ ls, TrimSpace l ≠ "JUMP!".toList) → parseLines ops n ls st = .ok st := by
  induction ls with
  | nil => intro n st _ _; rfl
  | cons l ls ih =>
    intro n st hj h
    simp only [parseLines]
    rw [processLine_scanning ops n l st hj (h l (List.mem_cons_self _ _))]
    exact ih (n + 1) st hj (fun x hx => h x (List.mem_cons_of_mem _ hx))

/-- C5. When no line of the text is `JUMP!` after trimming, `Parse` returns a font
with no glyph and with `Spacing` zero. -/
theorem Parse_without_jump {F : Type} (ops : Float32Ops F) (text : Str)
    (h : ∀ l ∈ Split '\n' text, TrimSpace l ≠ "JUMP!".toList) :
    Parse ops text = .ok ⟨ops.zero, []⟩ := by
  unfold Parse
  rw [parseLines_scanning ops _ 0 (initState ops) rfl h]
  rfl

/-- C5, witness: the empty text, and a text of malformed lines without `JUMP!`. -/
theorem Parse_without_jump_witness :
    Parse decimalOps [] = .ok ⟨⟨0, 0⟩, []⟩ ∧
      Parse decimalOps "GRID: a\nSPACING:\nA x y\n JUMP !".toList = .ok ⟨⟨0, 0⟩, []⟩ :=
  ⟨Parse_without_jump decimalOps [] (by decide),
    Parse_without_jump decimalOps "GRID: a\nSPACING:\nA x y\n JUMP !".toList (by decide)⟩

/-! ## Glyph lines -/

/-- C6. A glyph line with label `L` and index tokens `toks`, processed after `JUMP!`
under a positive grid width, every token inside a complete pair being an integer
for `Atoi`, is accepted; the glyph stored under `L` has exactly `toks.length / 2`
segments, and segment `k` (counted from zero) joins the conversions of the tokens
`2k` and `2k+1` of `toks`. Nothing is asked of an unpaired last token. -/
theorem glyph_line_segments {F : Type} (ops : Float32Ops F) (n : Nat) (raw : Str)
    (st : State F) (L : Str) (toks : List Str) (hj : st.jumpFound = true)
    (hw : 0 < st.gridWidth) (hg : isGlyphLine raw L toks)
    (hint : ∀ t ∈ toks.take (2 * (toks.length / 2)), ∃ a, Atoi t = .ok a) :
    ∃ segs st', processLine ops n raw st = .ok st' ∧
      st' = { st with font :=
        { st.font with Glyphs := mapSet st.font.Glyphs L { Rune := L, Lines := segs } } } ∧
      mapGet st'.font.Glyphs L = some { Rune := L, Lines := segs } ∧
      segs.length = toks.length / 2 ∧
      ∀ k, k < toks.length / 2 → ∃ ta tb a b pa pb,
        toks[2 * k]? = some ta ∧ toks[2 * k + 1]? = some tb ∧
        Atoi ta = .ok a ∧ Atoi tb = .ok b ∧
        convert ops st a = .ok pa ∧ convert ops st b = .ok pb ∧
        segs[k]? = some (pa, pb) := by
  obtain ⟨segs, hrun, hcount, hseg⟩ := glyphLoop_ok ops st n (by omega) toks [] hint
  refine ⟨segs, _, ?_, rfl, ?_, hcount, hseg⟩
  · rw [processLine_glyph ops n raw st L toks hj hg, hrun]
    simp [Outcome.bind]
  · exact mapGet_mapSet_self _ _ _

/-- C6, witness: the line `A 0 1 z` under `GRID: 5 x 5`; its third index token is
not an integer and is left over. -/
theorem glyph_line_segments_witness :
    ∃ segs st', processLine decimalOps 3 "A 0 1 z".toList
        { font := ⟨⟨0, 0⟩, []⟩, gridWidth := 5, gridHeight := 5, scaleWidth := ⟨2, 1⟩,
          scaleHeight := ⟨2, 1⟩, jumpFound := true } = .ok st' ∧
      st' = { font := ⟨⟨0, 0⟩, [("A".toList, { Rune := "A".toList, Lines := segs })]⟩,
              gridWidth := 5, gridHeight := 5, scaleWidth := ⟨2, 1⟩,
              scaleHeight := ⟨2, 1⟩, jumpFound := true } ∧
      mapGet st'.font.Glyphs "A".toList = some { Rune := "A".toList, Lines := segs } ∧
      segs.length = 1 ∧
      ∀ k, k < 1 → ∃ ta tb a b pa pb,
        ["0".toList, "1".toList, "z".toList][2 * k]? = some ta ∧
        ["0".toList, "1".toList, "z".toList][2 * k + 1]? = some tb ∧
        Atoi ta = .ok a ∧ Atoi tb = .ok b ∧
        convert decimalOps
          { font := ⟨⟨0, 0⟩, []⟩, gridWidth := 5, gridHeight := 5, scaleWidth := ⟨2, 1⟩,
            scaleHeight := ⟨2, 1⟩, jumpFound := true } a = .ok pa ∧
        convert decimalOps
          { font := ⟨⟨0, 0⟩, []⟩, gridWidth := 5, gridHeight := 5, scaleWidth := ⟨2, 1⟩,
            scaleHeight := ⟨2, 1⟩, jumpFound := true } b = .ok pb ∧
        segs[k]? = some (pa, pb) :=
  glyph_line_segments decimalOps 3 "A 0 1 z".toList
    { font := ⟨⟨0, 0⟩, []⟩, gridWidth := 5, gridHeight := 5, scaleWidth := ⟨2, 1⟩,
      scaleHeight := ⟨2, 1⟩, jumpFound := true }
    "A".toList ["0".toList, "1".toList, "z".toList] rfl (by decide)
    ⟨by decide, by decide, by decide, by decide, by decide⟩
    (by
      intro t ht
      have h2 : t = "0".toList ∨ t = "1".toList := by simpa using ht
      rcases h2 with rfl | rfl
      · exact ⟨0, rfl⟩
      · exact ⟨1, rfl⟩)

/-! ## Blank lines and comments are no-ops -/

/-- C7. Let the text `t2` be the text `t1` with one more line `l` inserted at any
line position, `l` being white space only or having `#` as its first character
after white space. Then `Parse` returns a font on `t2` exactly when it does on `t1`,
and the same font; it returns an error on `t2` exactly when it does on `t1`; and it
panics on `t2` exactly when it does on `t1`. -/
theorem blank_or_comment_line_is_noop {F : Type} (ops : Float32Ops F) (t1 t2 : Str)
    (pre post : List Str) (l : Str) (h1 : Split '\n' t1 = pre ++ post)
    (h2 : Split '\n' t2 = pre ++ l :: post) (hl : isBlankOrComment l) :
    (∀ f, Parse ops t2 = .ok f ↔ Parse ops t1 = .ok f) ∧
      ((∃ e, Parse ops t2 = .error e) ↔ (∃ e, Parse ops t1 = .error e)) ∧
      (∀ q, Parse ops t2 = .panic q ↔ Parse ops t1 = .panic q) := by
  apply Parse_forgetLine
  rw [h1, h2]
  exact parseLines_insert_noop ops l hl post pre 0 (initState ops)

/-- C7, witness: a comment line inserted after `JUMP!`, in front of a glyph line with
a token that is not an integer. -/
theorem blank_or_comment_line_is_noop_witness :
    (∀ f, Parse decimalOps "JUMP!\n  # note\nGRID: 5 x 5\nA 0 x".toList = .ok f ↔
        Parse decimalOps "JUMP!\nGRID: 5 x 5\nA 0 x".toList = .ok f) ∧
      ((∃ e, Parse decimalOps "JUMP!\n  # note\nGRID: 5 x 5\nA 0 x".toList = .error e) ↔
        (∃ e, Parse decimalOps "JUMP!\nGRID: 5 x 5\nA 0 x".toList = .error e)) ∧
      (∀ q, Parse decimalOps "JUMP!\n  # note\nGRID: 5 x 5\nA 0 x".toList = .panic q ↔
        Parse decimalOps "JUMP!\nGRID: 5 x 5\nA 0 x".toList = .panic q) :=
  blank_or_comment_line_is_noop decimalOps "JUMP!\nGRID: 5 x 5\nA 0 x".toList
    "JUMP!\n  # note\nGRID: 5 x 5\nA 0 x".toList ["JUMP!".toList]
    ["GRID: 5 x 5".toList, "A 0 x".toList] "  # note".toList (by decide) (by decide)
    (Or.inr ⟨"  ".toList, " note".toList, rfl, by decide⟩)

/-! ## Redefinition of a glyph -/

/-- C8. In a text on which `Parse` succeeds, let `l` be a glyph line for the label
`L`, met after `JUMP!`, such that no later line is a glyph line for `L`. Then the
glyph stored under `L` in the returned font has `Rune` `L` and exactly the segments
that the glyph loop builds from the index tokens of `l` in the state `st` in effect
at `l`: one segment for each complete pair of tokens, converted with the grid and
scale of `st`. Whatever an earlier line stored under `L` is gone. -/
theorem last_glyph_definition_wins {F : Type} (ops : Float32Ops F) (text : Str)
    (pre post : List Str) (l L : Str) (toks : List Str) (f : Font F)
    (hsplit : Split '\n' text = pre ++ l :: post)
    (hjump : ∃ j ∈ pre, TrimSpace j = "JUMP!".toList)
    (hg : isGlyphLine l L toks)
    (hlast : ∀ l' ∈ post, ¬ ∃ toks', isGlyphLine l' L toks')
    (hok : Parse ops text = .ok f) :
    ∃ st segs, parseLines ops 0 pre (initState ops) = .ok st ∧
      glyphLoop ops st pre.length toks [] = .ok segs ∧
      mapGet f.Glyphs L = some { Rune := L, Lines := segs } ∧
      segs.length = toks.length / 2 ∧
      ∀ k, k < toks.length / 2 → ∃ ta tb a b pa pb,
        toks[2 * k]? = some ta ∧ toks[2 * k + 1]? = some tb ∧
        Atoi ta = .ok a ∧ Atoi tb = .ok b ∧
        convert ops st a = .ok pa ∧ convert ops st b = .ok pb ∧
        segs[k]? = some (pa, pb) := by
  obtain ⟨stf, hrun, rfl⟩ := Parse_ok_inv ops text f hok
  rw [hsplit] at hrun
  obtain ⟨st, st1, hpre, hline, hpost⟩ := parseLines_cut ops pre post l _ stf hrun
  have hj : st.jumpFound = true :=
    parseLines_jumpFound ops pre 0 _ st hpre (Or.inr hjump)
  rw [processLine_glyph ops pre.length l st L toks hj hg] at hline
  cases hloop : glyphLoop ops st pre.length toks [] with
  | error e => rw [hloop] at hline; cases hline
  | panic q => rw [hloop] at hline; cases hline
  | ok segs =>
    rw [hloop] at hline
    simp only [Outcome.bind, Outcome.ok.injEq] at hline
    obtain ⟨segs', hout, hcount, hseg⟩ := glyphLoop_ok_inv ops st pre.length toks [] segs hloop
    simp only [List.nil_append] at hout
    subst hout
    refine ⟨st, segs, hpre, hloop, ?_, hcount, hseg⟩
    rw [parseLines_glyph_frame ops L post _ st1 stf hpost hlast, ← hline]
    exact mapGet_mapSet_self _ _ _

/-- C8, witness: `A` is defined twice, with different segments; the font holds the
second definition only. -/
theorem last_glyph_definition_wins_witness :
    ∃ st segs,
      parseLines decimalOps 0 ["JUMP!".toList, "GRID: 2 x 2".toList,
        "SCALING: 1 x 1".toList, "A 0 1 1 3".toList] (initState decimalOps) = .ok st ∧
      glyphLoop decimalOps st 4 ["2".toList, "3".toList] [] = .ok segs ∧
      mapGet
        (⟨⟨0, 0⟩, [("A".toList, ⟨"A".toList, [(⟨⟨0, 0⟩, ⟨1, 0⟩⟩, ⟨⟨1, 0⟩, ⟨1, 0⟩⟩)]⟩),
          ("B".toList, ⟨"B".toList, [(⟨⟨0, 0⟩, ⟨0, 0⟩⟩, ⟨⟨1, 0⟩, ⟨0, 0⟩⟩)]⟩)]⟩ :
          Font Dec).Glyphs "A".toList = some { Rune := "A".toList, Lines := segs } ∧
      segs.length = 1 ∧
      ∀ k, k < 1 → ∃ ta tb a b pa pb,
        ["2".toList, "3".toList][2 * k]? = some ta ∧
        ["2".toList, "3".toList][2 * k + 1]? = some tb ∧
        Atoi ta = .ok a ∧ Atoi tb = .ok b ∧
        convert decimalOps st a = .ok pa ∧ convert decimalOps st b = .ok pb ∧
        segs[k]? = some (pa, pb) :=
  last_glyph_definition_wins decimalOps
    "JUMP!\nGRID: 2 x 2\nSCALING: 1 x 1\nA 0 1 1 3\nA 2 3\nB 0 1".toList
    ["JUMP!".toList, "GRID: 2 x 2".toList, "SCALING: 1 x 1".toList, "A 0 1 1 3".toList]
    ["B 0 1".toList] "A 2 3".toList "A".toList ["2".toList, "3".toList]
    ⟨⟨0, 0⟩, [("A".toList, ⟨"A".toList, [(⟨⟨0, 0⟩, ⟨1, 0⟩⟩, ⟨⟨1, 0⟩, ⟨1, 0⟩⟩)]⟩),
      ("B".toList, ⟨"B".toList, [(⟨⟨0, 0⟩, ⟨0, 0⟩⟩, ⟨⟨1, 0⟩, ⟨0, 0⟩⟩)]⟩)]⟩
    (by decide) ⟨"JUMP!".toList, by decide, by decide⟩
    ⟨by decide, by decide, by decide, by decide, by decide⟩
    (by
      intro l' hl' hex
      obtain ⟨toks', _, _, _, h4, _⟩ := hex
      simp only [List.mem_singleton] at hl'
      subst hl'
      have h5 := congrArg List.head? h4
      simp only [List.head?_cons] at h5
      revert h5
      decide)
    (by decide)

/-! ## The spacing -/

/-- C9. On a text where `Parse` succeeds with the font `f`: if `l` is a line after
`JUMP!` whose first token is `SPACING:` and no later line has that first token, then
`l` has exactly two tokens, the second is read by `ParseFloat` as a value `v`, and
`f.Spacing` is `v`; if no line after `JUMP!` has the first token `SPACING:`, then
`f.Spacing` is zero. -/
theorem spacing_is_last_SPACING_line {F : Type} (ops : Float32Ops F) (text : Str)
    (f : Font F) (hok : Parse ops text = .ok f) :
    (∀ pre l post, Split '\n' text = pre ++ l :: post →
        (∃ j ∈ pre, TrimSpace j = "JUMP!".toList) →
        firstToken l = some "SPACING:".toList →
        (∀ l' ∈ post, firstToken l' ≠ some "SPACING:".toList) →
        ∃ tok v, Split ' ' (TrimSpace l) = ["SPACING:".toList, tok] ∧
          ops.parseFloat tok = .ok v ∧ f.Spacing = v) ∧
      ((∀ pre l post, Split '\n' text = pre ++ l :: post →
          (∃ j ∈ pre, TrimSpace j = "JUMP!".toList) →
          firstToken l ≠ some "SPACING:".toList) →
        f.Spacing = ops.zero) := by
  obtain ⟨stf, hrun, rfl⟩ := Parse_ok_inv ops text f hok
  constructor
  · intro pre l post hsplit hjump hfirst hlast
    rw [hsplit] at hrun
    obtain ⟨st, st1, hpre, hline, hpost⟩ := parseLines_cut ops pre post l _ stf hrun
    have hj : st.jumpFound = true :=
      parseLines_jumpFound ops pre 0 _ st hpre (Or.inr hjump)
    cases htok : Split ' ' (TrimSpace l) with
    | nil => exact absurd htok (Split_ne_nil _ _)
    | cons t0 rest =>
      have ht0 : t0 = "SPACING:".toList := by
        simpa [firstToken, htok] using hfirst
      subst ht0
      rw [processLine_of_first_token ops pre.length l st _ rest hj htok
        (Or.inr (Or.inl rfl))] at hline
      have hframe : stf.font.Spacing = st1.font.Spacing :=
        parseLines_spacing_frame ops post _ st1 stf hpost (fun _ => hlast)
          (fun a l' b hab _ => hlast l' (by rw [hab]; simp))
      rcases dispatch_ok_inv ops pre.length st st1 _ rest hline with
        ⟨ht, _⟩ | ⟨_, t1, v, hrest, hv, hst⟩ | ⟨ht, _⟩ | ⟨ht, _⟩ | ⟨hd, _⟩
      · exact absurd ht (by decide)
      · refine ⟨t1, v, by rw [hrest], hv, ?_⟩
        rw [hframe, hst]
      · exact absurd ht (by decide)
      · exact absurd ht (by decide)
      · exact absurd (Or.inr (Or.inl rfl)) hd
  · intro hnone
    exact parseLines_spacing_frame ops _ 0 (initState ops) stf hrun
      (fun hj => by cases hj) hnone

/-- C9, witness: two `SPACING:` lines in a row leave the second value, `0.25`. -/
theorem spacing_is_last_SPACING_line_witness :
    ∃ tok v, Split ' ' (TrimSpace "SPACING: 0.25".toList) = ["SPACING:".toList, tok] ∧
      decimalOps.parseFloat tok = .ok v ∧ (⟨⟨25, 2⟩, []⟩ : Font Dec).Spacing = v :=
  (spacing_is_last_SPACING_line decimalOps
    "JUMP!\nSPACING: 0.5\nSPACING: 0.25\nGRID: 2 x 2".toList ⟨⟨25, 2⟩, []⟩ (by decide)).1
    ["JUMP!".toList, "SPACING: 0.5".toList] "SPACING: 0.25".toList ["GRID: 2 x 2".toList]
    (by decide) ⟨"JUMP!".toList, by decide, by decide⟩ (by decide) (by decide)

/-! ## Directive lines with a wrong number of tokens -/

/-- C10. Let `l` be a line after `JUMP!` whose first token is `GRID:` or `SCALING:`
and whose number of tokens is not 4, or whose first token is `SPACING:` and whose
number of tokens is not 2. Then `Parse` returns no font, and when the lines before
`l` are processed without failure it returns the error `invalid number of tokens`. -/
theorem directive_token_count_error {F : Type} (ops : Float32Ops F) (text : Str)
    (pre post : List Str) (l t0 : Str) (rest : List Str)
    (hsplit : Split '\n' text = pre ++ l :: post)
    (hjump : ∃ j ∈ pre, TrimSpace j = "JUMP!".toList)
    (htok : Split ' ' (TrimSpace l) = t0 :: rest)
    (hbad : ((t0 = "GRID:".toList ∨ t0 = "SCALING:".toList) ∧ rest.length + 1 ≠ 4) ∨
      (t0 = "SPACING:".toList ∧ rest.length + 1 ≠ 2)) :
    (∀ f, Parse ops text ≠ .ok f) ∧
      (∀ st, parseLines ops 0 pre (initState ops) = .ok st →
        Parse ops text = .error .invalidNumberOfTokens) := by
  have hd : isDirective t0 := by
    rcases hbad with ⟨h | h, _⟩ | ⟨h, _⟩
    · exact Or.inl h
    · exact Or.inr (Or.inr (Or.inl h))
    · exact Or.inr (Or.inl h)
  have key : ∀ st, parseLines ops 0 pre (initState ops) = .ok st →
      Parse ops text = .error .invalidNumberOfTokens := by
    intro st hpre
    have hj : st.jumpFound = true :=
      parseLines_jumpFound ops pre 0 _ st hpre (Or.inr hjump)
    unfold Parse
    rw [hsplit, parseLines_append, hpre]
    simp only [Outcome.bind, parseLines, Nat.zero_add]
    rw [processLine_of_first_token ops pre.length l st t0 rest hj htok hd,
      dispatch_count_error ops pre.length st t0 rest hbad]
  refine ⟨fun f hf => ?_, key⟩
  cases hpre : parseLines ops 0 pre (initState ops) with
  | ok st => rw [key st hpre] at hf; cases hf
  | error e =>
    unfold Parse at hf
    rw [hsplit, parseLines_append, hpre] at hf
    simp [Outcome.bind] at hf
  | panic q =>
    unfold Parse at hf
    rw [hsplit, parseLines_append, hpre] at hf
    simp [Outcome.bind] at hf

/-- C10, witness: the line `GRID: 5 x 5 x` has five tokens. -/
theorem directive_token_count_error_witness :
    (∀ f, Parse decimalOps "JUMP!\nGRID: 5 x 5 x\nA 0 1".toList ≠ .ok f) ∧
      (∀ st, parseLines decimalOps 0 ["JUMP!".toList] (initState decimalOps) = .ok st →
        Parse decimalOps "JUMP!\nGRID: 5 x 5 x\nA 0 1".toList =
          .error .invalidNumberOfTokens) :=
  directive_token_count_error decimalOps "JUMP!\nGRID: 5 x 5 x\nA 0 1".toList
    ["JUMP!".toList] ["A 0 1".toList] "GRID: 5 x 5 x".toList "GRID:".toList
    ["5".toList, "x".toList, "5".toList, "x".toList] (by decide)
    ⟨"JUMP!".toList, by decide, by decide⟩ (by decide) (by decide)

/-! ## Panics of one iteration -/

/-- A run of the glyph loop that panics divides by a zero grid width, on a first
pair of tokens that both are integers. -/
theorem glyphLoop_panic_inv {F : Type} (ops : Float32Ops F) (st : State F) (n : Nat) :
    ∀ (toks : List Str) (acc : List (Vector F × Vector F)) (q : Panic),
      glyphLoop ops st n toks acc = .panic q →
      q = .divideByZero ∧ st.gridWidth = 0 ∧ 2 ≤ toks.length
  | [], acc, q, h => by simp [glyphLoop] at h
  | [t], acc, q, h => by simp [glyphLoop] at h
  | ta :: tb :: rest, acc, q, h => by
    by_cases hw : st.gridWidth = 0
    · refine ⟨?_, hw, by simp⟩
      cases ha : Atoi ta with
      | error e => simp [glyphLoop, ha, orFail, bind, Outcome.bind] at h
      | ok a =>
        cases hb : Atoi tb with
        | error e => simp [glyphLoop, ha, hb, orFail, bind, Outcome.bind] at h
        | ok b =>
          simp [glyphLoop, ha, hb, orFail, bind, Outcome.bind, convert, hw] at h
          exact h.symm
    · exfalso
      cases ha : Atoi ta with
      | error e => simp [glyphLoop, ha, orFail, bind, Outcome.bind] at h
      | ok a =>
        cases hb : Atoi tb with
        | error e => simp [glyphLoop, ha, hb, orFail, bind, Outcome.bind] at h
        | ok b =>
          obtain ⟨pa, hpa⟩ := convert_ok ops st a hw
          obtain ⟨pb, hpb⟩ := convert_ok ops st b hw
          simp only [glyphLoop, ha, hb, hpa, hpb, orFail, bind, Outcome.bind] at h
          exact hw (glyphLoop_panic_inv ops st n rest _ q h).2.1

/-- The `switch` statement panics only in the glyph case, inside the glyph loop. -/
theorem dispatch_panic_inv {F : Type} (ops : Float32Ops F) (n : Nat) (st : State F)
    (t0 : Str) (rest : List Str) (q : Panic)
    (h : dispatch ops n (t0 :: rest) st = .panic q) :
    ¬ isDirective t0 ∧ glyphLoop ops st n rest [] = .panic q := by
  by_cases hd : isDirective t0
  · exfalso
    rcases hd with hd | hd | hd | hd
    · subst hd
      rcases rest with _ | ⟨t1, _ | ⟨t2, _ | ⟨t3, _ | ⟨t4, r⟩⟩⟩⟩ <;>
        try (simp [dispatch, index, bind, Outcome.bind] at h; done)
      cases hw : Atoi t1 with
      | error k => simp [dispatch, index, bind, Outcome.bind, orFail, hw] at h
      | ok w =>
        cases hh : Atoi t3 with
        | error k => simp [dispatch, index, bind, Outcome.bind, orFail, hw, hh] at h
        | ok ht => simp [dispatch, index, bind, Outcome.bind, orFail, hw, hh, pure] at h
    · subst hd
      rcases rest with _ | ⟨t1, _ | ⟨t2, r⟩⟩ <;>
        try (simp [dispatch, index, bind, Outcome.bind] at h; done)
      cases hv : ops.parseFloat t1 with
      | error k => simp [dispatch, index, bind, Outcome.bind, orFail, hv] at h
      | ok v => simp [dispatch, index, bind, Outcome.bind, orFail, hv, pure] at h
    · subst hd
      rcases rest with _ | ⟨t1, _ | ⟨t2, _ | ⟨t3, _ | ⟨t4, r⟩⟩⟩⟩ <;>
        try (simp [dispatch, index, bind, Outcome.bind] at h; done)
      cases hw : ops.parseFloat t1 with
      | error k => simp [dispatch, index, bind, Outcome.bind, orFail, hw] at h
      | ok w =>
        cases hh : ops.parseFloat t3 with
        | error k => simp [dispatch, index, bind, Outcome.bind, orFail, hw, hh] at h
        | ok ht => simp [dispatch, index, bind, Outcome.bind, orFail, hw, hh, pure] at h
    · subst hd
      rw [dispatch_color] at h
      cases h
  · refine ⟨hd, ?_⟩
    rw [dispatch_glyph ops n st t0 rest hd] at h
    cases hg : glyphLoop ops st n rest [] with
    | error e => simp [hg, Outcome.bind] at h
    | ok segs => simp [hg, Outcome.bind] at h
    | panic q' =>
      simp [hg, Outcome.bind] at h
      rw [h]

/-! ## The `GRID:` line -/

/-- C11. A line met after `JUMP!` whose first token is `GRID:` is accepted exactly
when it has four tokens of which the second and the fourth are integers for `Atoi`.
When accepted it sets the grid width and height to these two integers, whatever the
third token is; when not accepted the iteration returns an error. -/
theorem grid_line_accepted_iff {F : Type} (ops : Float32Ops F) (n : Nat) (raw : Str)
    (st : State F) (rest : List Str) (hj : st.jumpFound = true)
    (htok : Split ' ' (TrimSpace raw) = "GRID:".toList :: rest) :
    ((∃ st', processLine ops n raw st = .ok st') ↔
        ∃ t1 t2 t3 w h, rest = [t1, t2, t3] ∧ Atoi t1 = .ok w ∧ Atoi t3 = .ok h) ∧
      (∀ t1 t2 t3 w h, rest = [t1, t2, t3] → Atoi t1 = .ok w → Atoi t3 = .ok h →
        processLine ops n raw st = .ok { st with gridWidth := w, gridHeight := h }) ∧
      ((¬ ∃ t1 t2 t3 w h, rest = [t1, t2, t3] ∧ Atoi t1 = .ok w ∧ Atoi t3 = .ok h) →
        ∃ e, processLine ops n raw st = .error e) := by
  have hp := processLine_of_first_token ops n raw st _ rest hj htok (Or.inl rfl)
  have hset : ∀ t1 t2 t3 w h, rest = [t1, t2, t3] → Atoi t1 = .ok w → Atoi t3 = .ok h →
      processLine ops n raw st = .ok { st with gridWidth := w, gridHeight := h } := by
    intro t1 t2 t3 w h hrest hw hh
    rw [hp, hrest]
    exact dispatch_grid ops n st t1 t2 t3 w h hw hh
  have hinv : (∃ st', processLine ops n raw st = .ok st') →
      ∃ t1 t2 t3 w h, rest = [t1, t2, t3] ∧ Atoi t1 = .ok w ∧ Atoi t3 = .ok h := by
    rintro ⟨st', hok⟩
    rw [hp] at hok
    rcases dispatch_ok_inv ops n st st' _ rest hok with
      ⟨_, t1, t2, t3, w, h, hrest, hw, hh, _⟩ | ⟨ht, _⟩ | ⟨ht, _⟩ | ⟨ht, _⟩ | ⟨hd, _⟩
    · exact ⟨t1, t2, t3, w, h, hrest, hw, hh⟩
    · exact absurd ht (by decide)
    · exact absurd ht (by decide)
    · exact absurd ht (by decide)
    · exact absurd (Or.inl rfl) hd
  refine ⟨⟨hinv, ?_⟩, hset, ?_⟩
  · rintro ⟨t1, t2, t3, w, h, hrest, hw, hh⟩
    exact ⟨_, hset t1 t2 t3 w h hrest hw hh⟩
  · intro hno
    cases hres : processLine ops n raw st with
    | ok st' => exact absurd (hinv ⟨st', hres⟩) hno
    | error e => exact ⟨e, rfl⟩
    | panic q =>
      rw [hp] at hres
      exact absurd (Or.inl rfl) (dispatch_panic_inv ops n st _ rest q hres).1

/-- C11, witness: `GRID: 5 y 5` sets the grid to 5 by 5, as `GRID: 5 x 5` does. -/
theorem grid_line_accepted_iff_witness :
    processLine decimalOps 1 "GRID: 5 y 5".toList
        { font := ⟨⟨0, 0⟩, []⟩, gridWidth := 0, gridHeight := 0, scaleWidth := ⟨0, 0⟩,
          scaleHeight := ⟨0, 0⟩, jumpFound := true } =
      .ok { font := ⟨⟨0, 0⟩, []⟩, gridWidth := 5, gridHeight := 5, scaleWidth := ⟨0, 0⟩,
            scaleHeight := ⟨0, 0⟩, jumpFound := true } :=
  (grid_line_accepted_iff decimalOps 1 "GRID: 5 y 5".toList
    { font := ⟨⟨0, 0⟩, []⟩, gridWidth := 0, gridHeight := 0, scaleWidth := ⟨0, 0⟩,
      scaleHeight := ⟨0, 0⟩, jumpFound := true }
    ["5".toList, "y".toList, "5".toList] rfl (by decide)).2.1
    "5".toList "y".toList "5".toList 5 5 rfl rfl rfl

/-! ## The first error ends the run -/

theorem Split_append (sep : Char) (s t : Str) :
    Split sep (s ++ sep :: t) = Split sep s ++ Split sep t := by
  induction s with
  | nil => simp [Split]
  | cons c cs ih =>
    by_cases hc : c = sep
    · simp [Split, hc, ih]
    · cases hs : Split sep cs with
      | nil => exact absurd hs (Split_ne_nil _ _)
      | cons w ws => simp [Split, hc, ih, hs]

/-- C12. When `Parse` returns the error `e` on the text `t`, it returns the same
error `e` on `t` followed by a newline and any text `u`. -/
theorem error_is_final {F : Type} (ops : Float32Ops F) (t u : Str) (e : ParseError)
    (h : Parse ops t = .error e) : Parse ops (t ++ '\n' :: u) = .error e := by
  unfold Parse at h ⊢
  rw [Split_append, parseLines_append]
  cases hp : parseLines ops 0 (Split '\n' t) (initState ops) with
  | ok st => rw [hp] at h; cases h
  | panic q => rw [hp] at h; cases h
  | error e' =>
    rw [hp] at h
    simp only [Outcome.error.injEq] at h
    subst h
    rfl

/-- C12, witness: the malformed line `GRID: 5` followed by well-formed lines. -/
theorem error_is_final_witness :
    Parse decimalOps ("JUMP!\nGRID: 5".toList ++ '\n' :: "GRID: 5 x 5\nA 0 1".toList) =
      .error .invalidNumberOfTokens :=
  error_is_final decimalOps "JUMP!\nGRID: 5".toList "GRID: 5 x 5\nA 0 1".toList
    .invalidNumberOfTokens (by decide)

/-! ## The two results of `Parse` -/

/-- C13, the code at the failing input. On the text `JUMP!` / `A 0 1` the call of
`Parse` panics with a division by zero: it returns neither a font nor an error. -/
theorem Parse_returns_neither_on_zero_grid {F : Type} (ops : Float32Ops F) :
    Parse ops "JUMP!\nA 0 1".toList = .panic .divideByZero ∧
      (∀ f, Parse ops "JUMP!\nA 0 1".toList ≠ .ok f) ∧
      (∀ e, Parse ops "JUMP!\nA 0 1".toList ≠ .error e) := by
  have h : Parse ops "JUMP!\nA 0 1".toList = .panic .divideByZero := rfl
  refine ⟨h, fun f hf => ?_, fun e he => ?_⟩
  · rw [h] at hf; cases hf
  · rw [h] at he; cases he

/-! ## Directives act on later lines only -/

theorem Split_of_not_mem (sep : Char) (s : Str) (h : sep ∉ s) : Split sep s = [s] := by
  induction s with
  | nil => rfl
  | cons c cs ih =>
    have hc : c ≠ sep := fun e => h (by simp [e])
    have hcs : sep ∉ cs := fun e => h (List.mem_cons_of_mem _ e)
    simp [Split, hc, ih hcs]

theorem TrimSpace_ne_jump_of_first_token (raw t0 : Str) (rest : List Str)
    (htok : Split ' ' (TrimSpace raw) = t0 :: rest) (hd : isDirective t0) :
    TrimSpace raw ≠ "JUMP!".toList := by
  intro h
  rw [h] at htok
  have h0 : t0 = "JUMP!".toList := by
    have := congrArg List.head? htok
    simpa [Split] using this.symm
  subst h0
  revert hd
  decide

/-- A well-formed `GRID:` or `SCALING:` line leaves the font as it is, in either
state of the loop. -/
theorem processLine_grid_or_scaling {F : Type} (ops : Float32Ops F) (n : Nat) (line : Str)
    (st : State F) (t1 t2 t3 : Str)
    (hline : (Split ' ' (TrimSpace line) = ["GRID:".toList, t1, t2, t3] ∧
        (∃ w, Atoi t1 = .ok w) ∧ ∃ h, Atoi t3 = .ok h) ∨
      (Split ' ' (TrimSpace line) = ["SCALING:".toList, t1, t2, t3] ∧
        (∃ w, ops.parseFloat t1 = .ok w) ∧ ∃ h, ops.parseFloat t3 = .ok h)) :
    ∃ st', processLine ops n line st = .ok st' ∧ st'.font = st.font := by
  cases hj : st.jumpFound with
  | false =>
    refine ⟨st, processLine_scanning ops n line st hj ?_, rfl⟩
    rcases hline with ⟨htok, _⟩ | ⟨htok, _⟩
    · exact TrimSpace_ne_jump_of_first_token line _ _ htok (Or.inl rfl)
    · exact TrimSpace_ne_jump_of_first_token line _ _ htok (Or.inr (Or.inr (Or.inl rfl)))
  | true =>
    rcases hline with ⟨htok, ⟨w, hw⟩, ⟨h, hh⟩⟩ | ⟨htok, ⟨w, hw⟩, ⟨h, hh⟩⟩
    · refine ⟨{ st with gridWidth := w, gridHeight := h }, ?_, rfl⟩
      rw [processLine_of_first_token ops n line st _ _ hj htok (Or.inl rfl)]
      exact dispatch_grid ops n st t1 t2 t3 w h hw hh
    · refine ⟨{ st with scaleWidth := w, scaleHeight := h }, ?_, rfl⟩
      rw [processLine_of_first_token ops n line st _ _ hj htok
        (Or.inr (Or.inr (Or.inl rfl)))]
      exact dispatch_scaling ops n st t1 t2 t3 w h hw hh

/-- C14. When `Parse` returns the font `f` on a text, it returns the same font `f`,
with the same `Spacing` and the same `Glyphs`, on that text followed by one more
line that is a well-formed `GRID:` line (four tokens, the second and fourth integers)
or a well-formed `SCALING:` line (four tokens, the second and fourth floats). -/
theorem appended_grid_or_scaling_keeps_font {F : Type} (ops : Float32Ops F)
    (text line : Str) (f : Font F) (t1 t2 t3 : Str) (hnl : '\n' ∉ line)
    (hline : (Split ' ' (TrimSpace line) = ["GRID:".toList, t1, t2, t3] ∧
        (∃ w, Atoi t1 = .ok w) ∧ ∃ h, Atoi t3 = .ok h) ∨
      (Split ' ' (TrimSpace line) = ["SCALING:".toList, t1, t2, t3] ∧
        (∃ w, ops.parseFloat t1 = .ok w) ∧ ∃ h, ops.parseFloat t3 = .ok h))
    (hok : Parse ops text = .ok f) :
    Parse ops (text ++ '\n' :: line) = .ok f := by
  obtain ⟨stf, hrun, rfl⟩ := Parse_ok_inv ops text f hok
  obtain ⟨st', hstep, hfont⟩ :=
    processLine_grid_or_scaling ops (0 + (Split '\n' text).length) line stf t1 t2 t3 hline
  unfold Parse
  rw [Split_append, Split_of_not_mem '\n' line hnl, parseLines_append, hrun]
  simp only [Outcome.bind, parseLines, hstep, hfont]

/-- C14, witness: `GRID: 7 x 7` appended after a glyph line. -/
theorem appended_grid_or_scaling_keeps_font_witness :
    Parse decimalOps ("JUMP!\nGRID: 2 x 2\nA 0 1".toList ++ '\n' :: "GRID: 7 x 7".toList) =
      .ok ⟨⟨0, 0⟩, [("A".toList, ⟨"A".toList, [(⟨⟨0, 0⟩, ⟨0, 0⟩⟩, ⟨⟨0, 0⟩, ⟨0, 0⟩⟩)]⟩)]⟩ :=
  appended_grid_or_scaling_keeps_font decimalOps "JUMP!\nGRID: 2 x 2\nA 0 1".toList
    "GRID: 7 x 7".toList _ "7".toList "x".toList "7".toList (by decide)
    (Or.inl ⟨by decide, ⟨7, rfl⟩, ⟨7, rfl⟩⟩) (by decide)

/-! ## The `COLOR:` line -/

theorem parseLines_insert_skip {F : Type} (ops : Float32Ops F) (l : Str)
    (hl : ∀ (n : Nat) (st : State F), processLine ops n l st = .ok st)
    (post : List Str) (pre : List Str) :
    ∀ (n : Nat) (st : State F),
      (parseLines ops n (pre ++ l :: post) st).forgetLine =
        (parseLines ops n (pre ++ post) st).forgetLine := by
  induction pre with
  | nil =>
    intro n st
    simp only [List.nil_append, parseLines, hl n st]
    exact parseLines_lineno ops post (n + 1) n st
  | cons x pre ih =>
    intro n st
    simp only [List.cons_append, parseLines]
    cases processLine ops n x st with
    | ok st1 => exact ih (n + 1) st1
    | error e => rfl
    | panic q => rfl

theorem processLine_color {F : Type} (ops : Float32Ops F) (l : Str)
    (hl : firstToken l = some "COLOR:".toList) (n : Nat) (st : State F) :
    processLine ops n l st = .ok st := by
  cases htok : Split ' ' (TrimSpace l) with
  | nil => exact absurd htok (Split_ne_nil _ _)
  | cons t0 rest =>
    have ht0 : t0 = "COLOR:".toList := by simpa [firstToken, htok] using hl
    subst ht0
    have hd : isDirective "COLOR:".toList := Or.inr (Or.inr (Or.inr rfl))
    cases hj : st.jumpFound with
    | false =>
      exact processLine_scanning ops n l st hj
        (TrimSpace_ne_jump_of_first_token l _ rest htok hd)
    | true =>
      rw [processLine_of_first_token ops n l st _ rest hj htok hd]
      exact dispatch_color ops n st rest

/-- C15. A line whose first token is `COLOR:`, with any further tokens, is processed
without failure and without change of state wherever it stands. If the text `t1` is
the text `t2` without that line, `Parse` returns a font on `t2` exactly when it does
on `t1`, and the same font; it fails on `t2` exactly when it fails on `t1`. -/
theorem color_line_is_ignored {F : Type} (ops : Float32Ops F) (t1 t2 : Str)
    (pre post : List Str) (l : Str) (h1 : Split '\n' t1 = pre ++ post)
    (h2 : Split '\n' t2 = pre ++ l :: post) (hl : firstToken l = some "COLOR:".toList) :
    (∀ (n : Nat) (st : State F), processLine ops n l st = .ok st) ∧
      (∀ f, Parse ops t2 = .ok f ↔ Parse ops t1 = .ok f) ∧
      ((∃ e, Parse ops t2 = .error e) ↔ (∃ e, Parse ops t1 = .error e)) ∧
      (∀ q, Parse ops t2 = .panic q ↔ Parse ops t1 = .panic q) := by
  refine ⟨processLine_color ops l hl, ?_⟩
  apply Parse_forgetLine
  rw [h1, h2]
  exact parseLines_insert_skip ops l (processLine_color ops l hl) post pre 0 (initState ops)

/-- C15, witness: a `COLOR:` line with malformed content between two other lines. -/
theorem color_line_is_ignored_witness :
    (∀ (n : Nat) (st : State Dec),
        processLine decimalOps n "COLOR: 1 zz  3".toList st = .ok st) ∧
      (∀ f, Parse decimalOps "JUMP!\nCOLOR: 1 zz  3\nGRID: 2 x 2\nA 0 1".toList = .ok f ↔
        Parse decimalOps "JUMP!\nGRID: 2 x 2\nA 0 1".toList = .ok f) ∧
      ((∃ e, Parse decimalOps "JUMP!\nCOLOR: 1 zz  3\nGRID: 2 x 2\nA 0 1".toList =
          .error e) ↔
        (∃ e, Parse decimalOps "JUMP!\nGRID: 2 x 2\nA 0 1".toList = .error e)) ∧
      (∀ q, Parse decimalOps "JUMP!\nCOLOR: 1 zz  3\nGRID: 2 x 2\nA 0 1".toList =
          .panic q ↔
        Parse decimalOps "JUMP!\nGRID: 2 x 2\nA 0 1".toList = .panic q) :=
  color_line_is_ignored decimalOps "JUMP!\nGRID: 2 x 2\nA 0 1".toList
    "JUMP!\nCOLOR: 1 zz  3\nGRID: 2 x 2\nA 0 1".toList ["JUMP!".toList]
    ["GRID: 2 x 2".toList, "A 0 1".toList] "COLOR: 1 zz  3".toList (by decide) (by decide)
    (by decide)

/-! ## Unrecognised first tokens -/

theorem processLine_key_persist {F : Type} (ops : Float32Ops F) (n : Nat) (raw : Str)
    (st st' : State F) (k : Str) (h : processLine ops n raw st = .ok st')
    (hk : ∃ g, mapGet st.font.Glyphs k = some g ∧ g.Rune = k) :
    ∃ g, mapGet st'.font.Glyphs k = some g ∧ g.Rune = k := by
  rcases processLine_cases ops n raw st with
    ⟨_, hp⟩ | ⟨_, hp⟩ | ⟨_, _, hp⟩ | ⟨_, _, _, _, t, r, _, hp⟩
  · rw [hp] at h; cases h; exact hk
  · rw [hp] at h; cases h; exact hk
  · rw [hp] at h; cases h; exact hk
  · rw [hp] at h
    rcases dispatch_ok_inv ops n st st' t r h with
      ⟨_, _, _, _, _, _, _, _, _, rfl⟩ | ⟨_, _, _, _, _, rfl⟩ |
      ⟨_, _, _, _, _, _, _, _, _, rfl⟩ | ⟨_, rfl⟩ | ⟨_, segs, _, rfl⟩
    · exact hk
    · exact hk
    · exact hk
    · exact hk
    · by_cases htk : t = k
      · subst htk
        exact ⟨_, mapGet_mapSet_self _ _ _, rfl⟩
      · obtain ⟨g, hg, hr⟩ := hk
        exact ⟨g, by rw [← hg]; exact mapGet_mapSet_ne _ _ _ _ htk, hr⟩

theorem parseLines_key_persist {F : Type} (ops : Float32Ops F) (k : Str) (ls : List Str) :
    ∀ (n : Nat) (st st' : State F), parseLines ops n ls st = .ok st' →
      (∃ g, mapGet st.font.Glyphs k = some g ∧ g.Rune = k) →
      ∃ g, mapGet st'.font.Glyphs k = some g ∧ g.Rune = k := by
  induction ls with
  | nil =>
    intro n st st' h hk
    simp only [parseLines, Outcome.ok.injEq] at h
    rw [← h]; exact hk
  | cons l ls ih =>
    intro n st st' h hk
    simp only [parseLines] at h
    cases hp : processLine ops n l st with
    | error e => rw [hp] at h; cases h
    | panic q => rw [hp] at h; cases h
    | ok st1 =>
      rw [hp] at h
      exact ih (n + 1) st1 st' h (processLine_key_persist ops n l st st1 k hp hk)

/-- C16. Let `l` be a line met after `JUMP!` under a positive grid width that is not
blank, not a comment and not `JUMP!`, whose first token `T` is none of `GRID:`,
`SPACING:`, `SCALING:`, `COLOR:`, and whose further tokens, of any number, are all
integers. Then the line is accepted and stores a glyph under the key `T`; if it is
the last line, `Parse` returns a font with a glyph under `T`; and whenever `Parse`
returns a font, that font has a glyph under `T`. -/
theorem unknown_first_token_is_glyph_label {F : Type} (ops : Float32Ops F) (text : Str)
    (pre post : List Str) (l T : Str) (toks : List Str) (st : State F)
    (hsplit : Split '\n' text = pre ++ l :: post)
    (hpre : parseLines ops 0 pre (initState ops) = .ok st)
    (hj : st.jumpFound = true) (hw : 0 < st.gridWidth) (hg : isGlyphLine l T toks)
    (hint : ∀ t ∈ toks, ∃ a, Atoi t = .ok a) :
    (∃ segs st1, processLine ops pre.length l st = .ok st1 ∧
        mapGet st1.font.Glyphs T = some { Rune := T, Lines := segs } ∧
        segs.length = toks.length / 2) ∧
      (post = [] → ∃ f g, Parse ops text = .ok f ∧ mapGet f.Glyphs T = some g ∧
        g.Rune = T) ∧
      (∀ f, Parse ops text = .ok f → ∃ g, mapGet f.Glyphs T = some g ∧ g.Rune = T) := by
  obtain ⟨segs, hloop, hcount, _⟩ := glyphLoop_ok ops st pre.length (by omega) toks []
    (fun t ht => hint t (List.mem_of_mem_take ht))
  have hline := processLine_glyph ops pre.length l st T toks hj hg
  rw [hloop] at hline
  simp only [List.nil_append, Outcome.bind] at hline
  have hget := mapGet_mapSet_self st.font.Glyphs T { Rune := T, Lines := segs }
  refine ⟨⟨segs, _, hline, hget, hcount⟩, ?_, ?_⟩
  · intro hpost
    refine ⟨{ st.font with Glyphs := mapSet st.font.Glyphs T { Rune := T, Lines := segs } },
      { Rune := T, Lines := segs }, ?_, hget, rfl⟩
    unfold Parse
    rw [hsplit, hpost, parseLines_append, hpre]
    simp only [Outcome.bind, parseLines, Nat.zero_add, hline]
  · intro f hok
    obtain ⟨stf, hrun, rfl⟩ := Parse_ok_inv ops text f hok
    rw [hsplit] at hrun
    obtain ⟨st', st1, hpre', hline', hpost⟩ := parseLines_cut ops pre post l _ stf hrun
    rw [hpre] at hpre'
    cases hpre'
    rw [hline] at hline'
    cases hline'
    exact parseLines_key_persist ops T post _ _ stf hpost ⟨_, hget, rfl⟩

/-- C16, witness: the line `grid: 0 1` defines a glyph with the label `grid:`. -/
theorem unknown_first_token_is_glyph_label_witness :
    ∃ f g, Parse decimalOps "JUMP!\nGRID: 2 x 2\ngrid: 0 1".toList = .ok f ∧
      mapGet f.Glyphs "grid:".toList = some g ∧ g.Rune = "grid:".toList :=
  (unknown_first_token_is_glyph_label decimalOps "JUMP!\nGRID: 2 x 2\ngrid: 0 1".toList
    ["JUMP!".toList, "GRID: 2 x 2".toList] [] "grid: 0 1".toList "grid:".toList
    ["0".toList, "1".toList]
    { font := ⟨⟨0, 0⟩, []⟩, gridWidth := 2, gridHeight := 2, scaleWidth := ⟨0, 0⟩,
      scaleHeight := ⟨0, 0⟩, jumpFound := true }
    (by decide) (by decide) rfl (by decide)
    ⟨by decide, by decide, by decide, by decide, by decide⟩
    (by
      intro t ht
      have h2 : t = "0".toList ∨ t = "1".toList := by simpa using ht
      rcases h2 with rfl | rfl
      · exact ⟨0, rfl⟩
      · exact ⟨1, rfl⟩)).2.1 rfl

/-! ## Lines before `JUMP!` -/

theorem parseLines_skip_scanned {F : Type} (ops : Float32Ops F) (pre rest : List Str)
    (hp : ∀ l ∈ pre, TrimSpace l ≠ "JUMP!".toList) :
    (parseLines ops 0 (pre ++ rest) (initState ops)).forgetLine =
      (parseLines ops 0 rest (initState ops)).forgetLine := by
  rw [parseLines_append, parseLines_scanning ops pre 0 (initState ops) rfl hp]
  simp only [Outcome.bind]
  exact parseLines_lineno ops rest _ _ _

/-- C17. Let two texts have the same lines from a line `j` on, such as their first
`JUMP!` line, no line before `j` being `JUMP!` after trimming. Then the lines before
`j` are processed without failure and leave the initial state unchanged, `Parse`
returns a font on one text exactly when it does on the other, and the same font, and
it fails on one exactly when it fails on the other. -/
theorem lines_before_jump_are_inert {F : Type} (ops : Float32Ops F) (t1 t2 : Str)
    (pre1 pre2 post : List Str) (j : Str)
    (h1 : Split '\n' t1 = pre1 ++ j :: post) (h2 : Split '\n' t2 = pre2 ++ j :: post)
    (hp1 : ∀ l ∈ pre1, TrimSpace l ≠ "JUMP!".toList)
    (hp2 : ∀ l ∈ pre2, TrimSpace l ≠ "JUMP!".toList) :
    parseLines ops 0 pre2 (initState ops) = .ok (initState ops) ∧
      (∀ f, Parse ops t2 = .ok f ↔ Parse ops t1 = .ok f) ∧
      ((∃ e, Parse ops t2 = .error e) ↔ (∃ e, Parse ops t1 = .error e)) ∧
      (∀ q, Parse ops t2 = .panic q ↔ Parse ops t1 = .panic q) := by
  refine ⟨parseLines_scanning ops pre2 0 (initState ops) rfl hp2, ?_⟩
  apply Parse_forgetLine
  rw [h1, h2, parseLines_skip_scanned ops pre2 _ hp2, parseLines_skip_scanned ops pre1 _ hp1]

/-- C17, witness: a comment before `JUMP!` replaced by two malformed lines. -/
theorem lines_before_jump_are_inert_witness :
    parseLines decimalOps 0 ["GRID: a".toList, "A x y".toList] (initState decimalOps) =
        .ok (initState decimalOps) ∧
      (∀ f, Parse decimalOps "GRID: a\nA x y\nJUMP!\nGRID: 2 x 2\nA 0 1".toList = .ok f ↔
        Parse decimalOps "# demo\nJUMP!\nGRID: 2 x 2\nA 0 1".toList = .ok f) ∧
      ((∃ e, Parse decimalOps "GRID: a\nA x y\nJUMP!\nGRID: 2 x 2\nA 0 1".toList =
          .error e) ↔
        (∃ e, Parse decimalOps "# demo\nJUMP!\nGRID: 2 x 2\nA 0 1".toList = .error e)) ∧
      (∀ q, Parse decimalOps "GRID: a\nA x y\nJUMP!\nGRID: 2 x 2\nA 0 1".toList =
          .panic q ↔
        Parse decimalOps "# demo\nJUMP!\nGRID: 2 x 2\nA 0 1".toList = .panic q) :=
  lines_before_jump_are_inert decimalOps "# demo\nJUMP!\nGRID: 2 x 2\nA 0 1".toList
    "GRID: a\nA x y\nJUMP!\nGRID: 2 x 2\nA 0 1".toList ["# demo".toList]
    ["GRID: a".toList, "A x y".toList] ["GRID: 2 x 2".toList, "A 0 1".toList]
    "JUMP!".toList (by decide) (by decide) (by decide) (by decide)

/-! ## Tokens -/

theorem Split_length (sep : Char) (s : Str) :
    (Split sep s).length = s.count sep + 1 := by
  induction s with
  | nil => simp [Split]
  | cons c cs ih =>
    by_cases hc : c = sep
    · simp [Split, hc, ih]
    · cases hs : Split sep cs with
      | nil => exact absurd hs (Split_ne_nil _ _)
      | cons w ws =>
        rw [hs] at ih
        simp only [Split, hc, if_false, hs, List.length_cons] at ih ⊢
        rw [List.count_cons_of_ne (Ne.symm hc)]
        exact ih

theorem Split_cons_of_not_mem (sep : Char) (L r : Str) (h : sep ∉ L) :
    Split sep (L ++ sep :: r) = L :: Split sep r := by
  rw [Split_append, Split_of_not_mem sep L h]
  rfl

/-- C18. Tokens are cut at every space and nowhere else: a line has one token more
than it has spaces, and a tab stays inside its token. Let `l` be a line met after
`JUMP!` whose trimmed form is a glyph label `L` followed by two spaces and any text
`r`. Then its tokens are `L`, the empty token, and the tokens of `r`; the empty token
starts the first pair and `Parse` returns the error of reading it. In the same state
the line `GRID:  5 x 5` has five tokens and is rejected for its number of tokens. -/
theorem double_space_gives_empty_token {F : Type} (ops : Float32Ops F) (text : Str)
    (pre post : List Str) (l L r : Str) (st : State F)
    (hsplit : Split '\n' text = pre ++ l :: post)
    (hpre : parseLines ops 0 pre (initState ops) = .ok st) (hj : st.jumpFound = true)
    (hline : TrimSpace l = L ++ ' ' :: ' ' :: r)
    (hL1 : L ≠ []) (hL2 : ' ' ∉ L) (hL3 : L.head? ≠ some '#') (hL4 : ¬ isDirective L) :
    (∀ s : Str, (Split ' ' s).length = s.count ' ' + 1) ∧
      Split ' ' "A\t0 1".toList = ["A\t0".toList, "1".toList] ∧
      Split ' ' (TrimSpace l) = L :: [] :: Split ' ' r ∧
      Parse ops text = .error (.readIndex pre.length [] ⟨[], .ErrSyntax⟩) ∧
      Split ' ' (TrimSpace "GRID:  5 x 5".toList) =
        ["GRID:".toList, [], "5".toList, "x".toList, "5".toList] ∧
      processLine ops pre.length "GRID:  5 x 5".toList st =
        .error .invalidNumberOfTokens := by
  have htoks : Split ' ' (TrimSpace l) = L :: [] :: Split ' ' r := by
    rw [hline, Split_cons_of_not_mem ' ' L _ hL2]
    simp [Split]
  have hg : isGlyphLine l L ([] :: Split ' ' r) := by
    refine ⟨?_, ?_, ?_, htoks, hL4⟩
    · rw [hline]; simp
    · rw [hline]
      cases L with
      | nil => exact absurd rfl hL1
      | cons c cs => simpa using hL3
    · intro h
      have hmem : ' ' ∈ "JUMP!".toList := by rw [← h, hline]; simp
      revert hmem
      decide
  have hstep : processLine ops pre.length l st =
      .error (.readIndex pre.length [] ⟨[], .ErrSyntax⟩) := by
    rw [processLine_glyph ops pre.length l st L _ hj hg]
    cases hs : Split ' ' r with
    | nil => exact absurd hs (Split_ne_nil _ _)
    | cons t ts =>
      have ha : Atoi [] = .error .ErrSyntax := rfl
      simp [glyphLoop, ha, orFail, bind, Outcome.bind]
  refine ⟨Split_length ' ', by decide, htoks, ?_, by decide, ?_⟩
  · unfold Parse
    rw [hsplit, parseLines_append, hpre]
    simp only [Outcome.bind, parseLines, Nat.zero_add, hstep]
  · rw [processLine_of_first_token ops pre.length "GRID:  5 x 5".toList st "GRID:".toList
      [[], "5".toList, "x".toList, "5".toList] hj (by decide) (Or.inl rfl)]
    exact dispatch_count_error ops pre.length st _ _ (Or.inl ⟨Or.inl rfl, by decide⟩)

/-- C18, witness: the line `A  0 1`, with two spaces after the label. -/
theorem double_space_gives_empty_token_witness :
    (∀ s : Str, (Split ' ' s).length = s.count ' ' + 1) ∧
      Split ' ' "A\t0 1".toList = ["A\t0".toList, "1".toList] ∧
      Split ' ' (TrimSpace "A  0 1".toList) =
        "A".toList :: [] :: Split ' ' "0 1".toList ∧
      Parse decimalOps "JUMP!\nGRID: 5 x 5\nA  0 1".toList =
        .error (.readIndex 2 [] ⟨[], .ErrSyntax⟩) ∧
      Split ' ' (TrimSpace "GRID:  5 x 5".toList) =
        ["GRID:".toList, [], "5".toList, "x".toList, "5".toList] ∧
      processLine decimalOps 2 "GRID:  5 x 5".toList
          { font := ⟨⟨0, 0⟩, []⟩, gridWidth := 5, gridHeight := 5, scaleWidth := ⟨0, 0⟩,
            scaleHeight := ⟨0, 0⟩, jumpFound := true } =
        .error .invalidNumberOfTokens :=
  double_space_gives_empty_token decimalOps "JUMP!\nGRID: 5 x 5\nA  0 1".toList
    ["JUMP!".toList, "GRID: 5 x 5".toList] [] "A  0 1".toList "A".toList "0 1".toList
    { font := ⟨⟨0, 0⟩, []⟩, gridWidth := 5, gridHeight := 5, scaleWidth := ⟨0, 0⟩,
      scaleHeight := ⟨0, 0⟩, jumpFound := true }
    (by decide) (by decide) rfl (by decide) (by decide) (by decide) (by decide) (by decide)

/-! ## The keys of the map of glyphs -/

theorem TrimSpace_head_not_space (raw : Str) (c : Char) (cs : Str)
    (h : TrimSpace raw = c :: cs) : IsSpace c = false := by
  have ht : TrimSpace raw = List.rdropWhile IsSpace (raw.dropWhile IsSpace) := by
    unfold TrimSpace List.rdropWhile
    rfl
  have hpre : List.rdropWhile IsSpace (raw.dropWhile IsSpace) <+: raw.dropWhile IsSpace :=
    List.rdropWhile_prefix IsSpace _
  rw [← ht, h] at hpre
  obtain ⟨u, hu⟩ := hpre
  have hnot := List.head?_dropWhile_not IsSpace raw
  rw [← hu] at hnot
  simpa using hnot

theorem Split_first_of_ne (sep c : Char) (cs t0 : Str) (rest : List Str)
    (h : Split sep (c :: cs) = t0 :: rest) (hc : c ≠ sep) : ∃ w, t0 = c :: w := by
  cases hs : Split sep cs with
  | nil => exact absurd hs (Split_ne_nil _ _)
  | cons w ws =>
    simp only [Split, hc, if_false, hs, List.cons.injEq] at h
    exact ⟨w, h.1.symm⟩

theorem Split_no_sep (sep : Char) (s : Str) : ∀ t ∈ Split sep s, sep ∉ t := by
  induction s with
  | nil => intro t ht; simp [Split] at ht; subst ht; simp
  | cons c cs ih =>
    intro t ht
    by_cases hc : c = sep
    · simp only [Split, hc, if_true, List.mem_cons] at ht
      rcases ht with rfl | ht
      · simp
      · exact ih t ht
    · cases hs : Split sep cs with
      | nil => exact absurd hs (Split_ne_nil _ _)
      | cons w ws =>
        rw [hs] at ih
        simp only [Split, hc, if_false, hs, List.mem_cons] at ht
        rcases ht with rfl | ht
        · intro hmem
          rcases List.mem_cons.mp hmem with h0 | h0
          · exact hc h0.symm
          · exact ih w (List.mem_cons_self _ _) h0
        · exact ih t (List.mem_cons_of_mem _ ht)

/-- The first token of a line that reaches the glyph case is a label. -/
theorem isLabel_of_isGlyphLine (raw L : Str) (toks : List Str)
    (hg : isGlyphLine raw L toks) : isLabel L := by
  obtain ⟨h1, h2, _, h4, h5⟩ := hg
  cases hl : TrimSpace raw with
  | nil => exact absurd hl h1
  | cons c cs =>
    rw [hl] at h2 h4
    have hsp : IsSpace c = false := TrimSpace_head_not_space raw c cs hl
    have hc : c ≠ ' ' := by
      intro e
      rw [e] at hsp
      revert hsp
      decide
    obtain ⟨w, hw⟩ := Split_first_of_ne ' ' c cs L toks h4 hc
    refine ⟨by rw [hw]; simp, ?_, ?_, h5⟩
    · exact Split_no_sep ' ' (c :: cs) L (by rw [h4]; simp)
    · rw [hw]; simpa using h2

theorem mem_mapSet {F : Type} (m : List (Str × Glyph F)) (k : Str) (g : Glyph F)
    (x : Str × Glyph F) (h : x ∈ mapSet m k g) : x = (k, g) ∨ x ∈ m := by
  induction m with
  | nil => simp [mapSet] at h; exact Or.inl h
  | cons kv rest ih =>
    obtain ⟨k', g'⟩ := kv
    by_cases hk : k' = k
    · simp only [mapSet, hk, if_true, List.mem_cons] at h
      rcases h with h | h
      · exact Or.inl h
      · exact Or.inr (List.mem_cons_of_mem _ h)
    · simp only [mapSet, hk, if_false, List.mem_cons] at h
      rcases h with h | h
      · exact Or.inr (by rw [h]; exact List.mem_cons_self _ _)
      · rcases ih h with h | h
        · exact Or.inl h
        · exact Or.inr (List.mem_cons_of_mem _ h)

theorem mapGet_mem {F : Type} (m : List (Str × Glyph F)) (k : Str) (g : Glyph F)
    (h : mapGet m k = some g) : (k, g) ∈ m := by
  induction m with
  | nil => simp [mapGet] at h
  | cons kv rest ih =>
    obtain ⟨k', g'⟩ := kv
    by_cases hk : k' = k
    · simp only [mapGet, hk, if_true, Option.some.injEq] at h
      rw [hk, h]
      exact List.mem_cons_self _ _
    · simp only [mapGet, hk, if_false] at h
      exact List.mem_cons_of_mem _ (ih h)

theorem processLine_keys {F : Type} (ops : Float32Ops F) (n : Nat) (raw : Str)
    (st st' : State F) (h : processLine ops n raw st = .ok st')
    (hinv : ∀ x ∈ st.font.Glyphs, x.2.Rune = x.1 ∧ isLabel x.1) :
    ∀ x ∈ st'.font.Glyphs, x.2.Rune = x.1 ∧ isLabel x.1 := by
  rcases processLine_cases ops n raw st with
    ⟨_, hp⟩ | ⟨_, hp⟩ | ⟨_, _, hp⟩ | ⟨h1, h2, h3, _, t, r, hs, hp⟩
  · rw [hp] at h; cases h; exact hinv
  · rw [hp] at h; cases h; exact hinv
  · rw [hp] at h; cases h; exact hinv
  · rw [hp] at h
    rcases dispatch_ok_inv ops n st st' t r h with
      ⟨_, _, _, _, _, _, _, _, _, rfl⟩ | ⟨_, _, _, _, _, rfl⟩ |
      ⟨_, _, _, _, _, _, _, _, _, rfl⟩ | ⟨_, rfl⟩ | ⟨hd, segs, _, rfl⟩
    · exact hinv
    · exact hinv
    · exact hinv
    · exact hinv
    · intro x hx
      rcases mem_mapSet _ _ _ x hx with rfl | hx
      · exact ⟨rfl, isLabel_of_isGlyphLine raw t r ⟨h1, h2, h3, hs, hd⟩⟩
      · exact hinv x hx

theorem parseLines_keys {F : Type} (ops : Float32Ops F) (ls : List Str) :
    ∀ (n : Nat) (st st' : State F), parseLines ops n ls st = .ok st' →
      (∀ x ∈ st.font.Glyphs, x.2.Rune = x.1 ∧ isLabel x.1) →
      ∀ x ∈ st'.font.Glyphs, x.2.Rune = x.1 ∧ isLabel x.1 := by
  induction ls with
  | nil =>
    intro n st st' h hinv
    simp only [parseLines, Outcome.ok.injEq] at h
    rw [← h]; exact hinv
  | cons l ls ih =>
    intro n st st' h hinv
    simp only [parseLines] at h
    cases hp : processLine ops n l st with
    | error e => rw [hp] at h; cases h
    | panic q => rw [hp] at h; cases h
    | ok st1 =>
      rw [hp] at h
      exact ih (n + 1) st1 st' h (processLine_keys ops n l st st1 hp hinv)

/-- C19. In a font returned by `Parse`, every entry of the map of glyphs, and so
every glyph found under a key `k`, has `Rune` equal to its key, and the key is not
empty, contains no space, does not start with `#` and is none of `GRID:`,
`SPACING:`, `SCALING:`, `COLOR:`; no glyph is stored under `#`. -/
theorem glyph_keys_are_labels {F : Type} (ops : Float32Ops F) (text : Str) (f : Font F)
    (hok : Parse ops text = .ok f) :
    (∀ k g, (k, g) ∈ f.Glyphs ∨ mapGet f.Glyphs k = some g →
        g.Rune = k ∧ k ≠ [] ∧ ' ' ∉ k ∧ k.head? ≠ some '#' ∧
          k ≠ "GRID:".toList ∧ k ≠ "SPACING:".toList ∧ k ≠ "SCALING:".toList ∧
          k ≠ "COLOR:".toList) ∧
      mapGet f.Glyphs "#".toList = none := by
  obtain ⟨stf, hrun, rfl⟩ := Parse_ok_inv ops text f hok
  have hinv := parseLines_keys ops _ 0 (initState ops) stf hrun
    (fun x hx => by simp [initState] at hx)
  have hall : ∀ k g, (k, g) ∈ stf.font.Glyphs ∨ mapGet stf.font.Glyphs k = some g →
      g.Rune = k ∧ k ≠ [] ∧ ' ' ∉ k ∧ k.head? ≠ some '#' ∧
        k ≠ "GRID:".toList ∧ k ≠ "SPACING:".toList ∧ k ≠ "SCALING:".toList ∧
        k ≠ "COLOR:".toList := by
    intro k g hkg
    have hmem : (k, g) ∈ stf.font.Glyphs := by
      rcases hkg with h | h
      · exact h
      · exact mapGet_mem _ _ _ h
    obtain ⟨hr, h1, h2, h3, h4⟩ := hinv (k, g) hmem
    simp only [isDirective, not_or] at h4
    exact ⟨hr, h1, h2, h3, h4.1, h4.2.1, h4.2.2.1, h4.2.2.2⟩
  refine ⟨hall, ?_⟩
  cases hget : mapGet stf.font.Glyphs "#".toList with
  | none => rfl
  | some g => exact absurd rfl (hall _ g (Or.inr hget)).2.2.2.1

/-- C19, witness: a font with the keys `A` and `JUMP!`. -/
theorem glyph_keys_are_labels_witness :
    (∀ k g, (k, g) ∈ (⟨⟨0, 0⟩, [("A".toList, ⟨"A".toList, []⟩),
          ("JUMP!".toList, ⟨"JUMP!".toList, []⟩)]⟩ : Font Dec).Glyphs ∨
        mapGet (⟨⟨0, 0⟩, [("A".toList, ⟨"A".toList, []⟩),
          ("JUMP!".toList, ⟨"JUMP!".toList, []⟩)]⟩ : Font Dec).Glyphs k = some g →
        g.Rune = k ∧ k ≠ [] ∧ ' ' ∉ k ∧ k.head? ≠ some '#' ∧
          k ≠ "GRID:".toList ∧ k ≠ "SPACING:".toList ∧ k ≠ "SCALING:".toList ∧
          k ≠ "COLOR:".toList) ∧
      mapGet (⟨⟨0, 0⟩, [("A".toList, ⟨"A".toList, []⟩),
        ("JUMP!".toList, ⟨"JUMP!".toList, []⟩)]⟩ : Font Dec).Glyphs "#".toList = none :=
  glyph_keys_are_labels decimalOps "JUMP!\n#\nA\nJUMP! 1".toList
    ⟨⟨0, 0⟩, [("A".toList, ⟨"A".toList, []⟩), ("JUMP!".toList, ⟨"JUMP!".toList, []⟩)]⟩
    (by decide)

/-! ## Totality -/

/-- An iteration panics only by dividing by a zero grid width, on a glyph line with
at least one complete pair of index tokens met after `JUMP!`. -/
theorem processLine_panic_inv {F : Type} (ops : Float32Ops F) (n : Nat) (raw : Str)
    (st : State F) (q : Panic) (h : processLine ops n raw st = .panic q) :
    q = .divideByZero ∧ st.jumpFound = true ∧ st.gridWidth = 0 ∧
      ∃ L toks, isGlyphLine raw L toks ∧ 2 ≤ toks.length := by
  rcases processLine_cases ops n raw st with
    ⟨_, hp⟩ | ⟨_, hp⟩ | ⟨_, _, hp⟩ | ⟨h1, h2, h3, hj, t, r, hs, hp⟩
  · rw [hp] at h; cases h
  · rw [hp] at h; cases h
  · rw [hp] at h; cases h
  · rw [hp] at h
    obtain ⟨hd, hloop⟩ := dispatch_panic_inv ops n st t r q h
    obtain ⟨hq, hw, hlen⟩ := glyphLoop_panic_inv ops st n r [] q hloop
    exact ⟨hq, hj, hw, t, r, ⟨h1, h2, h3, hs, hd⟩, hlen⟩

/-- A run of the loop that panics does so at one line, reached without failure. -/
theorem parseLines_panic_inv {F : Type} (ops : Float32Ops F) (ls : List Str) :
    ∀ (n : Nat) (st : State F) (q : Panic), parseLines ops n ls st = .panic q →
      ∃ a l b st', ls = a ++ l :: b ∧ parseLines ops n a st = .ok st' ∧
        processLine ops (n + a.length) l st' = .panic q := by
  induction ls with
  | nil => intro n st q h; simp [parseLines] at h
  | cons x ls ih =>
    intro n st q h
    simp only [parseLines] at h
    cases hp : processLine ops n x st with
    | error e => rw [hp] at h; cases h
    | panic q' =>
      rw [hp] at h
      cases h
      exact ⟨[], x, ls, st, rfl, rfl, by simpa using hp⟩
    | ok st1 =>
      rw [hp] at h
      obtain ⟨a, l, b, st', hab, hrun, hstep⟩ := ih (n + 1) st1 q h
      refine ⟨x :: a, l, b, st', by rw [hab]; rfl, ?_, ?_⟩
      · simp only [parseLines, hp, hrun]
      · rw [List.length_cons, show n + (a.length + 1) = n + 1 + a.length from by ring]
        exact hstep

/-- C20. On no text does `Parse` panic with an index out of range: the accesses
`line[0]` and `tokens[0]` are in range. If moreover every glyph line with at least
one complete pair of index tokens that is met after `JUMP!` is met under a non-zero
grid width, `Parse` returns normally: a font or an error. -/
theorem Parse_total_apart_from_zero_grid {F : Type} (ops : Float32Ops F) (text : Str)
    (hgrid : ∀ (pre post : List Str) (l L : Str) (toks : List Str) (st : State F),
      Split '\n' text = pre ++ l :: post →
      parseLines ops 0 pre (initState ops) = .ok st → st.jumpFound = true →
      isGlyphLine l L toks → 2 ≤ toks.length → st.gridWidth ≠ 0) :
    (∀ t : Str, Parse ops t ≠ .panic .indexOutOfRange) ∧
      (∀ q, Parse ops text ≠ .panic q) ∧
      ((∃ f, Parse ops text = .ok f) ∨ (∃ e, Parse ops text = .error e)) := by
  have hinv : ∀ (t : Str) (q : Panic), Parse ops t = .panic q →
      q = .divideByZero ∧ ∃ (pre post : List Str) (l L : Str) (toks : List Str)
        (st : State F), Split '\n' t = pre ++ l :: post ∧
        parseLines ops 0 pre (initState ops) = .ok st ∧ st.jumpFound = true ∧
        isGlyphLine l L toks ∧ 2 ≤ toks.length ∧ st.gridWidth = 0 := by
    intro t q h
    have hrun : parseLines ops 0 (Split '\n' t) (initState ops) = .panic q := by
      unfold Parse at h
      cases hp : parseLines ops 0 (Split '\n' t) (initState ops) with
      | ok st => rw [hp] at h; cases h
      | error e => rw [hp] at h; cases h
      | panic q' => rw [hp] at h; cases h; rfl
    obtain ⟨a, l, b, st', hab, hpre, hstep⟩ := parseLines_panic_inv ops _ 0 _ q hrun
    obtain ⟨hq, hj, hw, L, toks, hg, hlen⟩ := processLine_panic_inv ops _ l st' q hstep
    exact ⟨hq, a, b, l, L, toks, st', hab, hpre, hj, hg, hlen, hw⟩
  have hno : ∀ q, Parse ops text ≠ .panic q := by
    intro q h
    obtain ⟨_, pre, post, l, L, toks, st, hs, hpre, hj, hg, hlen, hw⟩ := hinv text q h
    exact hgrid pre post l L toks st hs hpre hj hg hlen hw
  refine ⟨fun t h => ?_, hno, ?_⟩
  · have := (hinv t _ h).1
    cases this
  · cases hp : Parse ops text with
    | ok f => exact Or.inl ⟨f, rfl⟩
    | error e => exact Or.inr ⟨e, rfl⟩
    | panic q => exact absurd hp (hno q)

/-- C20, witness: a text whose glyph lines with a pair come after `GRID: 2 x 2`; the
glyph line before it has no complete pair. -/
theorem Parse_total_apart_from_zero_grid_witness :
    (∀ t : Str, Parse decimalOps t ≠ .panic .indexOutOfRange) ∧
      (∀ q, Parse decimalOps "JUMP!\nB 7\nGRID: 2 x 2\nA 0 x".toList ≠ .panic q) ∧
      ((∃ f, Parse decimalOps "JUMP!\nB 7\nGRID: 2 x 2\nA 0 x".toList = .ok f) ∨
        (∃ e, Parse decimalOps "JUMP!\nB 7\nGRID: 2 x 2\nA 0 x".toList = .error e)) :=
  Parse_total_apart_from_zero_grid decimalOps "JUMP!\nB 7\nGRID: 2 x 2\nA 0 x".toList
    (by
      intro pre post l L toks st hs hpre hj hg hlen
      have hlines : Split '\n' "JUMP!\nB 7\nGRID: 2 x 2\nA 0 x".toList =
          ["JUMP!".toList, "B 7".toList, "GRID: 2 x 2".toList, "A 0 x".toList] := by
        decide
      rw [hlines] at hs
      obtain ⟨_, _, h3, h4, h5⟩ := hg
      rcases pre with _ | ⟨p1, _ | ⟨p2, _ | ⟨p3, _ | ⟨p4, pre⟩⟩⟩⟩ <;>
        simp only [List.nil_append, List.cons_append, List.cons.injEq] at hs
      · obtain ⟨rfl, -⟩ := hs
        exact absurd (by decide) h3
      · obtain ⟨-, rfl, -⟩ := hs
        have h6 : Split ' ' (TrimSpace "B 7".toList) = ["B".toList, "7".toList] := by
          decide
        rw [h6] at h4
        simp only [List.cons.injEq] at h4
        rw [← h4.2] at hlen
        simp at hlen
      · obtain ⟨-, -, rfl, -⟩ := hs
        have h6 : Split ' ' (TrimSpace "GRID: 2 x 2".toList) =
            ["GRID:".toList, "2".toList, "x".toList, "2".toList] := by decide
        rw [h6] at h4
        simp only [List.cons.injEq] at h4
        exact absurd (Or.inl h4.1.symm) h5
      · obtain ⟨rfl, rfl, rfl, -, -⟩ := hs
        have h6 : parseLines decimalOps 0
            ["JUMP!".toList, "B 7".toList, "GRID: 2 x 2".toList] (initState decimalOps) =
            .ok { font := ⟨⟨0, 0⟩, [("B".toList, ⟨"B".toList, []⟩)]⟩, gridWidth := 2,
                  gridHeight := 2, scaleWidth := ⟨0, 0⟩, scaleHeight := ⟨0, 0⟩,
                  jumpFound := true } := by decide
        rw [h6] at hpre
        cases hpre
        decide
      · simp at hs)

end Vsofont
